import Mathlib

/-!
Verification development for the aurea repository (danvoulez/aurea).

This file shallowly embeds the canonical-serialization ("NRF") layer, the
BLAKE3 content addressing, the receipt signing/verification paths of
aurea-runtime, the redb-backed persistent queue of aurea-storage, and the
daily Merkle anchor of aurea-receipts, and proves (or refutes) the frozen
specification claims about them.

Modelling conventions:
- Rust machine integers are Nat/Int with explicit range bounds where they
  matter; u64 counters saturate as in the source (saturating_add).
- serde_json values are the inductive JVal; serde_json Number is JNum,
  mirroring the PosInt / NegInt / Float storage of serde_json.
- finite f64 values are carried exactly as rationals (every finite double
  is a rational); the non-finite values are explicit constructors.
- fallible Rust functions return Except; Rust panics do not occur on the
  modelled paths.
- recursion over JVal trees is realized with an explicit sizeOf fuel so
  that every definition is executable by kernel reduction; the supplied
  fuel is always sufficient (see the fuel-irrelevance lemmas), so the
  exhaustion branch is unreachable.
-/

set_option maxRecDepth 8000

namespace Aurea

/-- Numeric normalization mode (aurea-core nrf/types.rs NumNorm; the only
mode is Strict). -/
inductive NumNorm where
  | strict
deriving DecidableEq

/-- Canonicalization profile (aurea-core nrf/types.rs CanonProfile). -/
structure CanonProfile where
  null_strip : Bool
  num_norm : NumNorm
deriving DecidableEq

/-- Default profile: null_strip = false, num_norm = Strict. -/
def CanonProfile.default : CanonProfile := { null_strip := false, num_norm := .strict }

/-- Canonicalization errors (aurea-core CanonError; the serialize variant
carries the message of an underlying serde_json error and also stands in
for the unreachable fuel-exhaustion branch of the embedding). -/
inductive CanonError where
  | disallowedString (s : String)
  | loneSurrogateEscape (s : String)
  | nonFiniteNumber
  | serialize (msg : String)
deriving DecidableEq

/-- Model of an IEEE-754 binary64 as held by serde_json: non-finite, or a
finite value carried exactly (every finite double is a rational). -/
inductive F64 where
  | nan
  | inf
  | negInf
  | fin (q : Rat)
deriving DecidableEq

/-- f64::is_finite. -/
def F64.isFinite : F64 → Bool
  | .fin _ => true
  | _ => false

/-- serde_json Number storage: PosInt (u64), NegInt (negative i64) or
Float (f64). -/
inductive JNum where
  | posInt (n : Nat)
  | negInt (i : Int)
  | float (f : F64)
deriving DecidableEq

/-- i64::MAX. -/
def i64Max : Int := 9223372036854775807

/-- i64::MIN. -/
def i64Min : Int := -9223372036854775808

/-- u64::MAX. -/
def u64Max : Nat := 18446744073709551615

/-- serde_json Number::as_i64: PosInt within i64 range, or NegInt. -/
def JNum.as_i64 : JNum → Option Int
  | .posInt n => if (n : Int) ≤ i64Max then some (n : Int) else none
  | .negInt i => some i
  | .float _ => none

/-- serde_json Number::as_u64: PosInt storage only. -/
def JNum.as_u64 : JNum → Option Nat
  | .posInt n => some n
  | .negInt _ => none
  | .float _ => none

/-- serde_json Number::as_f64 restricted to Float storage. On integer
storage the source converts with rounding; that branch is unreachable in
normalize_number because as_i64 / as_u64 catch every serde-representable
integer first, so the conversion is modelled as exact. -/
def JNum.as_f64 : JNum → Option F64
  | .float f => some f
  | .posInt n => some (.fin (n : Rat))
  | .negInt i => some (.fin (i : Rat))

/-- serde_json Number::from for an i64 value. -/
def jnumOfI64 (i : Int) : JNum := if i < 0 then .negInt i else .posInt i.toNat

/-- serde_json Number::from for a u64 value. -/
def jnumOfU64 (n : Nat) : JNum := .posInt n

/-- f64::trunc on a finite double: round toward zero. -/
def ratTrunc (q : Rat) : Int := if 0 ≤ q then q.floor else q.ceil

/-- Rust float-to-i128 cast on a finite double: truncate toward zero and
saturate at the i128 bounds. -/
def i128SatCast (q : Rat) : Int :=
  max (-(2 ^ 127)) (min (2 ^ 127 - 1) (ratTrunc q))

/-- aurea-core nrf/canon.rs normalize_number (the aurea-core lib.rs copy is
identical with the mode fixed to Strict): integers pass through via
as_i64 / as_u64; finite floats equal to zero or whole-valued within i64
range collapse to integers; other finite floats stay floats; non-finite
fails. -/
def normalize_number (num : JNum) (mode : NumNorm) : Except CanonError JNum :=
  match mode with
  | .strict =>
    match num.as_i64 with
    | some v => .ok (jnumOfI64 v)
    | none =>
      match num.as_u64 with
      | some v => .ok (jnumOfU64 v)
      | none =>
        match num.as_f64 with
        | none => .error .nonFiniteNumber
        | some float =>
          match float with
          | .fin q =>
            if q = 0 then .ok (jnumOfI64 0)
            else if q - (ratTrunc q : Rat) = 0 then
              let integer := i128SatCast q
              if i64Min ≤ integer ∧ integer ≤ i64Max then .ok (jnumOfI64 integer)
              else .ok (.float (.fin q))
            else .ok (.float (.fin q))
          | _ => .error .nonFiniteNumber

/-- char::to_digit(16). -/
def hexDigitVal? (c : Char) : Option Nat :=
  if '0' ≤ c ∧ c ≤ '9' then some (c.toNat - '0'.toNat)
  else if 'a' ≤ c ∧ c ≤ 'f' then some (c.toNat - 'a'.toNat + 10)
  else if 'A' ≤ c ∧ c ≤ 'F' then some (c.toNat - 'A'.toNat + 10)
  else none

/-- aurea-core parse_u_escape: read four hex digits from the front of the
remaining character list; any failure (short input or a non-hex digit) is
reported as LoneSurrogateEscape carrying the whole original string. -/
def parse_u_escape (s : String) (l : List Char) : Except CanonError Nat :=
  match l with
  | c1 :: c2 :: c3 :: c4 :: _ =>
    match hexDigitVal? c1, hexDigitVal? c2, hexDigitVal? c3, hexDigitVal? c4 with
    | some h1, some h2, some h3, some h4 => .ok (((h1 * 16 + h2) * 16 + h3) * 16 + h4)
    | _, _, _, _ => .error (.loneSurrogateEscape s)
  | _ => .error (.loneSurrogateEscape s)

/-- char::from_u32. -/
def charFromU32? (n : Nat) : Option Char :=
  if h : n.isValidChar then some (Char.ofNatAux n h) else none

/-- The backslash-u arm of the normalize_string_escapes loop. k is the
continuation of the loop on the remaining characters (the recursive call
at the current fuel); rest2 is what follows the u. A high surrogate must
be followed by a backslash-u low surrogate; the decoded scalar is
pushed. After decoding a pair the source advances its index by 6 instead
of 7 and its continue skips the trailing increment, which leaves the
index on the last hex digit of the low escape: that digit is processed
again, which the embedding reproduces by continuing from that digit
(tail6.drop 3 instead of tail6.drop 4). -/
def nsePairTail (s : String) (k : List Char → Except CanonError (List Char))
    (cp : Nat) : List Char → Except CanonError (List Char)
  | '\\' :: 'u' :: tail6 =>
    match parse_u_escape s tail6 with
    | .error err => .error err
    | .ok cp2 =>
      if ¬(0xDC00 ≤ cp2 ∧ cp2 ≤ 0xDFFF) then .error (.loneSurrogateEscape s)
      else
        match charFromU32? (0x10000 + ((cp - 0xD800) * 1024 + (cp2 - 0xDC00))) with
        | some ch => (k (tail6.drop 3)).map (fun out => ch :: out)
        | none => .error (.loneSurrogateEscape s)
  | _ => .error (.loneSurrogateEscape s)

def nseUnicodeOk (s : String) (k : List Char → Except CanonError (List Char))
    (rest2 : List Char) (cp : Nat) : Except CanonError (List Char) :=
  if 0xD800 ≤ cp ∧ cp ≤ 0xDBFF then nsePairTail s k cp (rest2.drop 4)
  else if 0xDC00 ≤ cp ∧ cp ≤ 0xDFFF then .error (.loneSurrogateEscape s)
  else
    match charFromU32? cp with
    | some ch => (k (rest2.drop 4)).map (fun out => ch :: out)
    | none => .error (.loneSurrogateEscape s)

def nseUnicode (s : String) (k : List Char → Except CanonError (List Char))
    (rest2 : List Char) : Except CanonError (List Char) :=
  match parse_u_escape s rest2 with
  | .error err => .error err
  | .ok cp => nseUnicodeOk s k rest2 cp

/-- The escape-character dispatch of the normalize_string_escapes loop
(the match on the character after a backslash): the standard short
escapes push their decoded character, u hands off to the unicode arm,
and any other character is preserved verbatim after the backslash. -/
def nseEscape (s : String) (k : List Char → Except CanonError (List Char))
    (e : Char) (rest2 : List Char) : Except CanonError (List Char) :=
  match e with
  | '"' => (k rest2).map (fun out => '"' :: out)
  | '\\' => (k rest2).map (fun out => '\\' :: out)
  | '/' => (k rest2).map (fun out => '/' :: out)
  | 'b' => (k rest2).map (fun out => '\x08' :: out)
  | 'f' => (k rest2).map (fun out => '\x0C' :: out)
  | 'n' => (k rest2).map (fun out => '\x0A' :: out)
  | 'r' => (k rest2).map (fun out => '\x0D' :: out)
  | 't' => (k rest2).map (fun out => '\x09' :: out)
  | 'u' => nseUnicode s k rest2
  | other => (k rest2).map (fun out => '\\' :: other :: out)

/-- Loop of aurea-core normalize_string_escapes, translated from the
index-based while loop to consumption of the remaining character list; s
is the original string (used in error payloads) and the Nat is fuel (one
unit per loop iteration; every iteration consumes at least one
character, so length + 1 fuel always suffices). A character other than
backslash is copied; a trailing backslash is kept; otherwise the escape
dispatch runs with the loop itself as continuation. -/
def nseGo (s : String) : Nat → List Char → Except CanonError (List Char)
  | 0, _ => .error (.serialize "recursion bound exhausted")
  | _ + 1, [] => .ok []
  | fuel + 1, c :: rest =>
    if c ≠ '\\' then (nseGo s fuel rest).map (fun out => c :: out)
    else
      match rest with
      | [] => .ok ['\\']
      | e :: rest2 => nseEscape s (nseGo s fuel) e rest2

/-- aurea-core normalize_string_escapes. Every loop iteration consumes at
least one character, and one final step observes the empty remainder, so
length + 1 fuel always suffices (nseGo_fuel below). -/
def normalize_string_escapes (s : String) : Except CanonError String :=
  (nseGo s (s.toList.length + 1) s.toList).map List.asString

/-- aurea-core validate_string: the literal strings NaN, Infinity and
-Infinity are rejected. -/
def validate_string (s : String) : Except CanonError Unit :=
  if s = "NaN" ∨ s = "Infinity" ∨ s = "-Infinity" then .error (.disallowedString s)
  else .ok ()

/-- serde_json Value: null, booleans, numbers, strings, arrays, objects.
Objects are represented by their entry lists; serde_json maps cannot hold
duplicate keys, so entry lists coming from the source are duplicate-free. -/
inductive JVal where
  | null
  | bool (b : Bool)
  | num (n : JNum)
  | str (s : String)
  | arr (items : List JVal)
  | obj (entries : List (String × JVal))

/-- serde_json Value::is_null. -/
def JVal.isNull : JVal → Bool
  | .null => true
  | _ => false

mutual

/-- Size of a JSON value, the fuel bound for tree recursions. -/
def jsize : JVal → Nat
  | .null => 1
  | .bool _ => 1
  | .num _ => 1
  | .str _ => 1
  | .arr items => jsizeList items + 1
  | .obj entries => jsizeEntries entries + 1

/-- Summed size of a list of values. -/
def jsizeList : List JVal → Nat
  | [] => 0
  | v :: rest => jsize v + jsizeList rest

/-- Summed size of the values of an entry list. -/
def jsizeEntries : List (String × JVal) → Nat
  | [] => 0
  | (_, v) :: rest => jsize v + jsizeEntries rest

end

mutual

/-- Decidable equality on JSON values (the derive handler does not support
this nested inductive, so the instance is written out). -/
def jvalDecEq : (a b : JVal) → Decidable (a = b)
  | .null, .null => isTrue rfl
  | .null, .bool _ => isFalse (fun h => by cases h)
  | .null, .num _ => isFalse (fun h => by cases h)
  | .null, .str _ => isFalse (fun h => by cases h)
  | .null, .arr _ => isFalse (fun h => by cases h)
  | .null, .obj _ => isFalse (fun h => by cases h)
  | .bool _, .null => isFalse (fun h => by cases h)
  | .bool x, .bool y =>
    match decEq x y with
    | isTrue h => isTrue (by rw [h])
    | isFalse h => isFalse (fun hh => h (by cases hh; rfl))
  | .bool _, .num _ => isFalse (fun h => by cases h)
  | .bool _, .str _ => isFalse (fun h => by cases h)
  | .bool _, .arr _ => isFalse (fun h => by cases h)
  | .bool _, .obj _ => isFalse (fun h => by cases h)
  | .num _, .null => isFalse (fun h => by cases h)
  | .num _, .bool _ => isFalse (fun h => by cases h)
  | .num x, .num y =>
    match decEq x y with
    | isTrue h => isTrue (by rw [h])
    | isFalse h => isFalse (fun hh => h (by cases hh; rfl))
  | .num _, .str _ => isFalse (fun h => by cases h)
  | .num _, .arr _ => isFalse (fun h => by cases h)
  | .num _, .obj _ => isFalse (fun h => by cases h)
  | .str _, .null => isFalse (fun h => by cases h)
  | .str _, .bool _ => isFalse (fun h => by cases h)
  | .str _, .num _ => isFalse (fun h => by cases h)
  | .str x, .str y =>
    match decEq x y with
    | isTrue h => isTrue (by rw [h])
    | isFalse h => isFalse (fun hh => h (by cases hh; rfl))
  | .str _, .arr _ => isFalse (fun h => by cases h)
  | .str _, .obj _ => isFalse (fun h => by cases h)
  | .arr _, .null => isFalse (fun h => by cases h)
  | .arr _, .bool _ => isFalse (fun h => by cases h)
  | .arr _, .num _ => isFalse (fun h => by cases h)
  | .arr _, .str _ => isFalse (fun h => by cases h)
  | .arr xs, .arr ys =>
    match jvalListDecEq xs ys with
    | isTrue h => isTrue (by rw [h])
    | isFalse h => isFalse (fun hh => h (by cases hh; rfl))
  | .arr _, .obj _ => isFalse (fun h => by cases h)
  | .obj _, .null => isFalse (fun h => by cases h)
  | .obj _, .bool _ => isFalse (fun h => by cases h)
  | .obj _, .num _ => isFalse (fun h => by cases h)
  | .obj _, .str _ => isFalse (fun h => by cases h)
  | .obj _, .arr _ => isFalse (fun h => by cases h)
  | .obj xs, .obj ys =>
    match jvalEntriesDecEq xs ys with
    | isTrue h => isTrue (by rw [h])
    | isFalse h => isFalse (fun hh => h (by cases hh; rfl))

/-- Decidable equality on lists of JSON values. -/
def jvalListDecEq : (a b : List JVal) → Decidable (a = b)
  | [], [] => isTrue rfl
  | [], _ :: _ => isFalse (fun h => by cases h)
  | _ :: _, [] => isFalse (fun h => by cases h)
  | x :: xs, y :: ys =>
    match jvalDecEq x y, jvalListDecEq xs ys with
    | isTrue h1, isTrue h2 => isTrue (by rw [h1, h2])
    | isFalse h1, _ => isFalse (fun hh => h1 (by cases hh; rfl))
    | _, isFalse h2 => isFalse (fun hh => h2 (by cases hh; rfl))

/-- Decidable equality on object entry lists. -/
def jvalEntriesDecEq : (a b : List (String × JVal)) → Decidable (a = b)
  | [], [] => isTrue rfl
  | [], _ :: _ => isFalse (fun h => by cases h)
  | _ :: _, [] => isFalse (fun h => by cases h)
  | (k1, v1) :: xs, (k2, v2) :: ys =>
    match decEq k1 k2, jvalDecEq v1 v2, jvalEntriesDecEq xs ys with
    | isTrue h0, isTrue h1, isTrue h2 => isTrue (by rw [h0, h1, h2])
    | isFalse h0, _, _ => isFalse (fun hh => h0 (by cases hh; rfl))
    | _, isFalse h1, _ => isFalse (fun hh => h1 (by cases hh; rfl))
    | _, _, isFalse h2 => isFalse (fun hh => h2 (by cases hh; rfl))

end

instance : DecidableEq JVal := jvalDecEq

deriving instance DecidableEq for Except

/-- Byte-lexicographic comparison of character lists; on Unicode strings the
UTF-8 byte order used by Rust str Ord coincides with code-point order. -/
def charsLe : List Char → List Char → Bool
  | [], _ => true
  | _ :: _, [] => false
  | x :: xs, y :: ys =>
    if x.toNat < y.toNat then true
    else if y.toNat < x.toNat then false
    else charsLe xs ys

/-- Rust String Ord (byte-lexicographic) as a boolean less-or-equal. -/
def strLe (a b : String) : Bool := charsLe a.toList b.toList

/-- Relation form of strLe used with insertion sort. -/
def strLeRel (a b : String) : Prop := strLe a b = true

instance : DecidableRel strLeRel := fun a b => instDecidableEqBool (strLe a b) true

/-- Key order on object entries: Rust sort_by comparing the keys. -/
def entryLe (a b : String × JVal) : Prop := strLeRel a.1 b.1

instance : DecidableRel entryLe := fun a b => instDecidableEqBool (strLe a.1 b.1) true

/-- Left-to-right canonicalization of array items (the for loop pushing
into out in the source), aborting on the first error; f is the
canonicalization of one value at the remaining fuel. -/
def canonArr (f : JVal → Except CanonError JVal) : List JVal → Except CanonError (List JVal)
  | [] => .ok []
  | v :: rest => do
    let c ← f v
    let cs ← canonArr f rest
    .ok (c :: cs)

/-- Left-to-right canonicalization of the values of object entries in
their (already sorted, already filtered) order, aborting on the first
error. -/
def canonPairs (f : JVal → Except CanonError JVal) :
    List (String × JVal) → Except CanonError (List (String × JVal))
  | [] => .ok []
  | (k, v) :: rest => do
    let c ← f v
    let cs ← canonPairs f rest
    .ok ((k, c) :: cs)

/-- Canonicalization of one value, by recursion with an explicit fuel (the
source recursion in aurea-core canonicalize_value is on the value tree;
jsize supplies a sufficient bound, see canonGo_fuel). Objects: entries
are sorted by key with a stable sort (Rust sort_by is stable; insertion
sort is the stable sort used here), entries whose value is null are
skipped when the profile strips nulls, and the remaining values are
canonicalized in sorted order. Arrays map in order; strings are
unescaped then validated; numbers are normalized. -/
def canonGo (profile : CanonProfile) : Nat → JVal → Except CanonError JVal
  | 0, _ => .error (.serialize "recursion bound exhausted")
  | fuel + 1, v =>
    match v with
    | .null => .ok .null
    | .bool b => .ok (.bool b)
    | .num n => (normalize_number n profile.num_norm).map .num
    | .str s => do
      let normalized ← normalize_string_escapes s
      let _ ← validate_string normalized
      .ok (.str normalized)
    | .arr items => (canonArr (canonGo profile fuel) items).map .arr
    | .obj entries =>
      let sorted := List.insertionSort entryLe entries
      let kept := sorted.filter (fun kv => !(profile.null_strip && kv.2.isNull))
      (canonPairs (canonGo profile fuel) kept).map .obj

/-- aurea-core canonicalize_value (both the lib.rs and the nrf/canon.rs
copy; they differ only in threading the number mode which the profile
already carries). -/
def canonicalize_value (value : JVal) (profile : CanonProfile) : Except CanonError JVal :=
  canonGo profile (jsize value) value

/-- Digits used by serde_json for control-character escapes and by
blake3 to_hex: lowercase hexadecimal. -/
def hexDigitChar (n : Nat) : Char :=
  if n = 0 then '0' else if n = 1 then '1' else if n = 2 then '2' else if n = 3 then '3'
  else if n = 4 then '4' else if n = 5 then '5' else if n = 6 then '6' else if n = 7 then '7'
  else if n = 8 then '8' else if n = 9 then '9' else if n = 10 then 'a' else if n = 11 then 'b'
  else if n = 12 then 'c' else if n = 13 then 'd' else if n = 14 then 'e' else 'f'

/-- serde_json escaping of one character inside a JSON string: quote and
backslash get two-character escapes, the named control escapes are used
for backspace, tab, newline, form feed and carriage return, any other
control character below 0x20 becomes a six-character unicode escape, and
everything else is emitted verbatim. -/
def escapeChar (c : Char) : List Char :=
  if c = '"' then ['\\', '"']
  else if c = '\\' then ['\\', '\\']
  else if c = '\x08' then ['\\', 'b']
  else if c = '\x09' then ['\\', 't']
  else if c = '\x0A' then ['\\', 'n']
  else if c = '\x0C' then ['\\', 'f']
  else if c = '\x0D' then ['\\', 'r']
  else if c.toNat < 0x20 then
    '\\' :: 'u' :: '0' :: '0' :: hexDigitChar (c.toNat / 16) :: [hexDigitChar (c.toNat % 16)]
  else [c]

/-- serde_json rendering of a JSON string: quoted, with escapeChar applied
to every character. -/
def serStr (s : String) : List Char :=
  '"' :: s.toList.flatMap escapeChar ++ ['"']

/-- Decimal digit characters of a Nat. -/
def natChars (n : Nat) : List Char := (Nat.repr n).toList

/-- Stand-in for the Ryu shortest-decimal rendering serde_json uses for
non-integer doubles. The claims under verification never inspect the
rendered bytes of a non-integer float, only that equal numbers render
equally, which any fixed function provides; integers (the case every
claim exercises) are rendered exactly as serde_json does, in decimal. -/
def renderFloat : F64 → List Char
  | .fin q => natChars q.num.natAbs ++ 'e' :: natChars q.den
  | _ => []

/-- serde_json rendering of a Number: PosInt and NegInt in decimal,
floats via the shortest-decimal renderer. -/
def renderNum : JNum → List Char
  | .posInt n => natChars n
  | .negInt i => if i < 0 then '-' :: natChars i.natAbs else natChars i.natAbs
  | .float f => renderFloat f

/-- Comma-separated rendering of array items. -/
def serItems (f : JVal → List Char) : List JVal → List Char
  | [] => []
  | [v] => f v
  | v :: rest => f v ++ ',' :: serItems f rest

/-- Comma-separated rendering of object entries, each as key colon value. -/
def serEntries (f : JVal → List Char) : List (String × JVal) → List Char
  | [] => []
  | [(k, v)] => serStr k ++ ':' :: f v
  | (k, v) :: rest => serStr k ++ ':' :: f v ++ ',' :: serEntries f rest

/-- serde_json to_string of a Value (compact form, no whitespace), again
with a sizeOf fuel for the tree recursion. -/
def serGo : Nat → JVal → List Char
  | 0, _ => []
  | fuel + 1, v =>
    match v with
    | .null => "null".toList
    | .bool true => "true".toList
    | .bool false => "false".toList
    | .num n => renderNum n
    | .str s => serStr s
    | .arr items => '[' :: serItems (serGo fuel) items ++ [']']
    | .obj entries => '\x7b' :: serEntries (serGo fuel) entries ++ ['\x7d']

/-- serde_json to_string of a Value. -/
def jsonRender (v : JVal) : String := (serGo (jsize v) v).asString

/-- UTF-8 encoding of one character. -/
def utf8Char (c : Char) : List Nat :=
  let n := c.toNat
  if n < 0x80 then [n]
  else if n < 0x800 then [0xC0 + n / 64, 0x80 + n % 64]
  else if n < 0x10000 then [0xE0 + n / 4096, 0x80 + n / 64 % 64, 0x80 + n % 64]
  else [0xF0 + n / 262144, 0x80 + n / 4096 % 64, 0x80 + n / 64 % 64, 0x80 + n % 64]

/-- UTF-8 bytes of a string (String::as_bytes / into_bytes). -/
def utf8Encode (s : String) : List Nat := s.toList.flatMap utf8Char

/-- aurea-core nrf/canon.rs to_nrf_bytes: canonicalize, then the serde_json
byte encoding of the canonical value. -/
def to_nrf_bytes (value : JVal) (profile : CanonProfile) : Except CanonError (List Nat) :=
  (canonicalize_value value profile).map (fun canon => utf8Encode (jsonRender canon))

/-- aurea-core canonical_json_string_with_profile. -/
def canonical_json_string_with_profile (value : JVal) (profile : CanonProfile) :
    Except CanonError String :=
  (canonicalize_value value profile).map jsonRender

/-- aurea-core canonical_json_string: default profile. -/
def canonical_json_string (value : JVal) : Except CanonError String :=
  canonical_json_string_with_profile value CanonProfile.default

/-! BLAKE3 (the blake3 crate behind blake3::hash), written out from the
published algorithm: 32-bit words, the 7-round compression function, the
chunked tree mode with CHUNK_START / CHUNK_END / PARENT / ROOT flags. -/

/-- BLAKE3 initialization vector (the SHA-256 constants). -/
def blake3IV : List Nat :=
  [0x6A09E667, 0xBB67AE85, 0x3C6EF372, 0xA54FF53A,
   0x510E527F, 0x9B05688C, 0x1F83D9AB, 0x5BE0CD19]

/-- BLAKE3 message word permutation applied between rounds. -/
def blake3Perm : List Nat := [2, 6, 3, 10, 7, 0, 4, 13, 1, 11, 12, 5, 9, 14, 15, 8]

/-- Domain flag: first block of a chunk. -/
def CHUNK_START : Nat := 1

/-- Domain flag: last block of a chunk. -/
def CHUNK_END : Nat := 2

/-- Domain flag: parent node compression. -/
def PARENT : Nat := 4

/-- Domain flag: final (root) compression. -/
def ROOT : Nat := 8

/-- Wrapping 32-bit addition. -/
def add32 (a b : Nat) : Nat := (a + b) % 4294967296

/-- 32-bit xor (operands below two to the 32 stay below it). -/
def xor32 (a b : Nat) : Nat := a ^^^ b

/-- 32-bit right rotation. -/
def rotr32 (x n : Nat) : Nat := ((x >>> n) + (x <<< (32 - n))) % 4294967296

/-- The BLAKE3 quarter-round G applied to state positions a b c d with
message words mx my. -/
def gMix (st : List Nat) (a b c d mx my : Nat) : List Nat :=
  let sa := add32 (add32 (st.getD a 0) (st.getD b 0)) mx
  let sd := rotr32 (xor32 (st.getD d 0) sa) 16
  let sc := add32 (st.getD c 0) sd
  let sb := rotr32 (xor32 (st.getD b 0) sc) 12
  let sa2 := add32 (add32 sa sb) my
  let sd2 := rotr32 (xor32 sd sa2) 8
  let sc2 := add32 sc sd2
  let sb2 := rotr32 (xor32 sb sc2) 7
  (((st.set a sa2).set b sb2).set c sc2).set d sd2

/-- One BLAKE3 round: four column mixes then four diagonal mixes. -/
def blake3Round (st m : List Nat) : List Nat :=
  let s1 := gMix st 0 4 8 12 (m.getD 0 0) (m.getD 1 0)
  let s2 := gMix s1 1 5 9 13 (m.getD 2 0) (m.getD 3 0)
  let s3 := gMix s2 2 6 10 14 (m.getD 4 0) (m.getD 5 0)
  let s4 := gMix s3 3 7 11 15 (m.getD 6 0) (m.getD 7 0)
  let s5 := gMix s4 0 5 10 15 (m.getD 8 0) (m.getD 9 0)
  let s6 := gMix s5 1 6 11 12 (m.getD 10 0) (m.getD 11 0)
  let s7 := gMix s6 2 7 8 13 (m.getD 12 0) (m.getD 13 0)
  gMix s7 3 4 9 14 (m.getD 14 0) (m.getD 15 0)

/-- Apply the message permutation. -/
def permuteWords (m : List Nat) : List Nat := blake3Perm.map (fun i => m.getD i 0)

/-- The BLAKE3 compression function: 8-word chaining value, 16 message
words, 64-bit counter, block length and flags; returns the 16-word
extended output (first 8 words are the new chaining value). -/
def blake3Compress (cv blockWords : List Nat) (counter blockLen flags : Nat) : List Nat :=
  let st0 := cv ++ [0x6A09E667, 0xBB67AE85, 0x3C6EF372, 0xA54FF53A,
    counter % 4294967296, counter / 4294967296 % 4294967296, blockLen % 4294967296,
    flags % 4294967296]
  let m1 := blockWords
  let s1 := blake3Round st0 m1
  let m2 := permuteWords m1
  let s2 := blake3Round s1 m2
  let m3 := permuteWords m2
  let s3 := blake3Round s2 m3
  let m4 := permuteWords m3
  let s4 := blake3Round s3 m4
  let m5 := permuteWords m4
  let s5 := blake3Round s4 m5
  let m6 := permuteWords m5
  let s6 := blake3Round s5 m6
  let m7 := permuteWords m6
  let s7 := blake3Round s6 m7
  let lo := (List.range 8).map (fun i => xor32 (s7.getD i 0) (s7.getD (i + 8) 0))
  let hi := (List.range 8).map (fun i => xor32 (s7.getD (i + 8) 0) (cv.getD i 0))
  lo ++ hi

/-- Little-endian 32-bit words of a byte list (the last group, if short,
is zero-extended; blocks are padded to 64 bytes before this is used). -/
def wordsOfBytes : List Nat → List Nat
  | b0 :: b1 :: b2 :: b3 :: rest =>
    (b0 + b1 * 256 + b2 * 65536 + b3 * 16777216) :: wordsOfBytes rest
  | [] => []
  | l => [l.foldr (fun b acc => acc * 256 + b) 0]

/-- Message words of one block: pad to 64 bytes, then 16 little-endian
words. -/
def blockWords (block : List Nat) : List Nat :=
  wordsOfBytes (block ++ List.replicate (64 - block.length) 0)

/-- Split a chunk's bytes into blocks of at most 64 bytes; an empty chunk
still has one (empty) block. -/
def blocksGo (acc : List Nat) : List Nat → List (List Nat)
  | [] => [acc.reverse]
  | b :: rest =>
    if acc.length = 64 then acc.reverse :: blocksGo [b] rest
    else blocksGo (b :: acc) rest

/-- Fold the blocks of one chunk through the compression function. The
first block carries CHUNK_START, the last carries CHUNK_END plus the
caller's root flag; the chaining value is the first 8 output words. -/
def chunkFold (counter rootFlag : Nat) (cv : List Nat) (isFirst : Bool) :
    List (List Nat) → List Nat
  | [] => cv
  | [b] =>
    let flags := (if isFirst then CHUNK_START else 0) + CHUNK_END + rootFlag
    (blake3Compress cv (blockWords b) counter b.length flags).take 8
  | b :: rest =>
    let flags := if isFirst then CHUNK_START else 0
    chunkFold counter rootFlag
      ((blake3Compress cv (blockWords b) counter b.length flags).take 8) false rest

/-- Chaining value of one chunk (at most 1024 bytes): fold its blocks from
the IV. -/
def chunkCV (bytes : List Nat) (counter rootFlag : Nat) : List Nat :=
  chunkFold counter rootFlag blake3IV true (blocksGo [] bytes)

/-- Largest power of two at most n (n at least 1). -/
def largestPow2Le (n : Nat) : Nat := 2 ^ Nat.log2 n

/-- Bytes in the left subtree: the largest power-of-two number of full
chunks that leaves at least one byte on the right. -/
def leftLen (contentLen : Nat) : Nat := largestPow2Le ((contentLen - 1) / 1024) * 1024

theorem leftLen_pos (n : Nat) : 1 ≤ leftLen n := by
  have h : 1 ≤ largestPow2Le ((n - 1) / 1024) := Nat.one_le_two_pow
  simp only [leftLen]
  omega

theorem leftLen_lt (n : Nat) (h : 1024 < n) : leftLen n < n := by
  have hm : 1 ≤ (n - 1) / 1024 := by
    have : 1024 ≤ n - 1 := by omega
    exact Nat.one_le_div_iff (by omega) |>.mpr this
  have hp : largestPow2Le ((n - 1) / 1024) ≤ (n - 1) / 1024 := by
    simpa [largestPow2Le, Nat.log2_eq_log_two] using
      Nat.pow_log_le_self 2 (x := (n - 1) / 1024) (by omega)
  have : leftLen n ≤ (n - 1) / 1024 * 1024 := by
    simp only [leftLen]
    exact Nat.mul_le_mul_right 1024 hp
  have hd : (n - 1) / 1024 * 1024 ≤ n - 1 := Nat.div_mul_le_self _ _
  omega

/-- Chaining value of a subtree of the BLAKE3 chunk tree (never the root):
a single chunk, or a PARENT compression of the two child chaining
values, the left child owning the largest power-of-two number of
chunks. -/
def subtreeCV (bytes : List Nat) (counter : Nat) : List Nat :=
  if bytes.length ≤ 1024 then chunkCV bytes counter 0
  else
    let l := leftLen bytes.length
    let lcv := subtreeCV (bytes.take l) counter
    let rcv := subtreeCV (bytes.drop l) (counter + l / 1024)
    (blake3Compress blake3IV (lcv ++ rcv) 0 64 PARENT).take 8
termination_by bytes.length
decreasing_by
  · have := leftLen_lt bytes.length (by omega)
    simp only [List.length_take]
    omega
  · have := leftLen_pos bytes.length
    simp only [List.length_drop]
    omega

/-- The 8 root output words of BLAKE3 for a byte string: a lone chunk
compressed with ROOT, or a root PARENT compression of the two subtree
chaining values. -/
def blake3Words (bytes : List Nat) : List Nat :=
  if bytes.length ≤ 1024 then chunkCV bytes 0 ROOT
  else
    let l := leftLen bytes.length
    let lcv := subtreeCV (bytes.take l) 0
    let rcv := subtreeCV (bytes.drop l) (l / 1024)
    (blake3Compress blake3IV (lcv ++ rcv) 0 64 (PARENT + ROOT)).take 8

/-- Little-endian bytes of a word list. -/
def bytesOfWords (ws : List Nat) : List Nat :=
  ws.flatMap (fun w => [w % 256, w / 256 % 256, w / 65536 % 256, w / 16777216 % 256])

/-- blake3::hash — the 32-byte digest. -/
def blake3Hash (bytes : List Nat) : List Nat := bytesOfWords (blake3Words bytes)

/-- Lowercase hex of a byte list (blake3 Hash::to_hex). -/
def hexOfBytes (bs : List Nat) : String :=
  (bs.flatMap (fun b => [hexDigitChar (b / 16), hexDigitChar (b % 16)])).asString

/-- RFC 4648 base32 alphabet, lowercased (data_encoding BASE32_NOPAD
encodes uppercase and aurea lowercases the result). -/
def base32Alphabet : List Char := "abcdefghijklmnopqrstuvwxyz234567".toList

/-- The eight bits of a byte, most significant first. -/
def byteBits (b : Nat) : List Nat :=
  [b / 128 % 2, b / 64 % 2, b / 32 % 2, b / 16 % 2, b / 8 % 2, b / 4 % 2, b / 2 % 2, b % 2]

/-- Five-bit groups of a bit list, the last group zero-padded (RFC 4648
base32 without padding characters). -/
def fiveBitGroups : List Nat → List Nat
  | [] => []
  | b1 :: b2 :: b3 :: b4 :: b5 :: rest =>
    (b1 * 16 + b2 * 8 + b3 * 4 + b4 * 2 + b5) :: fiveBitGroups rest
  | l => [(l ++ List.replicate (5 - l.length) 0).foldl (fun acc b => acc * 2 + b) 0]

/-- Lowercase unpadded base32 of a byte list. -/
def base32NoPadLower (bytes : List Nat) : String :=
  ((fiveBitGroups (bytes.flatMap byteBits)).map (fun v => base32Alphabet.getD v '?')).asString

/-- aurea-core nrf/hash.rs cid_of: lowercase unpadded base32 of the BLAKE3
digest. -/
def cid_of (bytes : List Nat) : String := base32NoPadLower (blake3Hash bytes)

/-- aurea-core lib.rs cid_for: canonical JSON string of the value (the
serde_json::to_value conversion is the identity here because the
embedding already works on JSON values), then lowercase hex of the
BLAKE3 digest of its bytes. -/
def cid_for (value : JVal) : Except CanonError String :=
  (canonical_json_string value).map (fun canon => hexOfBytes (blake3Hash (utf8Encode canon)))

/-! Base64 (the base64 crate, general_purpose::STANDARD engine: canonical
padding required on decode, trailing bits must be zero). -/

/-- Standard base64 alphabet. -/
def b64Alphabet : List Char :=
  "ABCDEFGHIJKLMNOPQRSTUVWXYZabcdefghijklmnopqrstuvwxyz0123456789+/".toList

/-- Value of one base64 digit. -/
def b64DigitVal? (c : Char) : Option Nat :=
  if 'A' ≤ c ∧ c ≤ 'Z' then some (c.toNat - 'A'.toNat)
  else if 'a' ≤ c ∧ c ≤ 'z' then some (c.toNat - 'a'.toNat + 26)
  else if '0' ≤ c ∧ c ≤ '9' then some (c.toNat - '0'.toNat + 52)
  else if c = '+' then some 62
  else if c = '/' then some 63
  else none

/-- Standard base64 encoding with padding. -/
def b64encode : List Nat → List Char
  | [] => []
  | [b1] =>
    [b64Alphabet.getD (b1 / 4) '?', b64Alphabet.getD (b1 % 4 * 16) '?', '=', '=']
  | [b1, b2] =>
    [b64Alphabet.getD (b1 / 4) '?', b64Alphabet.getD (b1 % 4 * 16 + b2 / 16) '?',
     b64Alphabet.getD (b2 % 16 * 4) '?', '=']
  | b1 :: b2 :: b3 :: rest =>
    b64Alphabet.getD (b1 / 4) '?' :: b64Alphabet.getD (b1 % 4 * 16 + b2 / 16) '?' ::
    b64Alphabet.getD (b2 % 16 * 4 + b3 / 64) '?' :: b64Alphabet.getD (b3 % 64) '?' ::
    b64encode rest

/-- Standard base64 decoding: four-character groups, canonical padding only
in the final group, nonzero trailing bits rejected. -/
def b64decodeGo : List Char → Option (List Nat)
  | [] => some []
  | [c1, c2, '=', '='] => do
    let v1 ← b64DigitVal? c1
    let v2 ← b64DigitVal? c2
    if v2 % 16 ≠ 0 then none else some [v1 * 4 + v2 / 16]
  | [c1, c2, c3, '='] => do
    let v1 ← b64DigitVal? c1
    let v2 ← b64DigitVal? c2
    let v3 ← b64DigitVal? c3
    if v3 % 4 ≠ 0 then none else some [v1 * 4 + v2 / 16, v2 % 16 * 16 + v3 / 4]
  | c1 :: c2 :: c3 :: c4 :: rest => do
    let v1 ← b64DigitVal? c1
    let v2 ← b64DigitVal? c2
    let v3 ← b64DigitVal? c3
    let v4 ← b64DigitVal? c4
    let tail ← b64decodeGo rest
    some ((v1 * 4 + v2 / 16) :: (v2 % 16 * 16 + v3 / 4) :: (v3 % 4 * 64 + v4) :: tail)
  | _ => none

/-- base64 STANDARD decode of a string. -/
def b64decode (s : String) : Option (List Nat) := b64decodeGo s.toList

/-! Receipts (aurea-core data model) and the aurea-runtime signing and
verification paths. UUIDs and timestamps are carried in their serialized
string form, which is all the modelled code observes. -/

/-- aurea-core WorkStatus (serde snake_case). -/
inductive WorkStatus where
  | accepted
  | assigned
  | progress
  | done
  | fail
deriving DecidableEq

/-- The snake_case name of a status: this is both its serde serialization
and the string produced by the explicit match in RedbStore::put_receipt
and status_label. -/
def status_label : WorkStatus → String
  | .accepted => "accepted"
  | .assigned => "assigned"
  | .progress => "progress"
  | .done => "done"
  | .fail => "fail"

/-- aurea-core PolicyEntry. -/
structure PolicyEntry where
  rule : String
  ok : Bool
  detail : Option String
deriving DecidableEq

/-- aurea-core ArtifactRef. -/
structure ArtifactRef where
  cid : String
  path : String
  size_bytes : Nat
deriving DecidableEq

/-- aurea-core ReceiptSignature. -/
structure ReceiptSignature where
  alg : String
  kid : String
  public_key : String
  signature : String
deriving DecidableEq

/-- aurea-core UnsignedReceipt. stage_time_ms is a BTreeMap in the source;
it is carried as its entry list in ascending key order (the order the
map iterates and serializes in). -/
structure UnsignedReceipt where
  work_id : String
  tenant : String
  topic : String
  status : WorkStatus
  idem_key : String
  plan_hash : String
  policy_trace : List PolicyEntry
  stage_time_ms : List (String × Nat)
  artifacts : List ArtifactRef
  created_at : String
deriving DecidableEq

/-- aurea-core Receipt. -/
structure Receipt where
  cid : String
  work_id : String
  tenant : String
  topic : String
  status : WorkStatus
  idem_key : String
  plan_hash : String
  policy_trace : List PolicyEntry
  stage_time_ms : List (String × Nat)
  artifacts : List ArtifactRef
  created_at : String
  signature : ReceiptSignature
deriving DecidableEq

/-- serde_json::to_value of a PolicyEntry: declared field order, detail
skipped when absent (skip_serializing_if). -/
def policyEntryToJVal (e : PolicyEntry) : JVal :=
  .obj ([("rule", .str e.rule), ("ok", .bool e.ok)] ++
    (match e.detail with
     | some d => [("detail", JVal.str d)]
     | none => []))

/-- serde_json::to_value of an ArtifactRef. -/
def artifactToJVal (a : ArtifactRef) : JVal :=
  .obj [("cid", .str a.cid), ("path", .str a.path), ("size_bytes", .num (.posInt a.size_bytes))]

/-- serde_json::to_value of an UnsignedReceipt: declared field order; the
status serializes to its snake_case name; the stage-time map serializes
entry by entry. -/
def unsignedToJVal (u : UnsignedReceipt) : JVal :=
  .obj [("work_id", .str u.work_id),
        ("tenant", .str u.tenant),
        ("topic", .str u.topic),
        ("status", .str (status_label u.status)),
        ("idem_key", .str u.idem_key),
        ("plan_hash", .str u.plan_hash),
        ("policy_trace", .arr (u.policy_trace.map policyEntryToJVal)),
        ("stage_time_ms", .obj (u.stage_time_ms.map (fun kv => (kv.1, JVal.num (.posInt kv.2))))),
        ("artifacts", .arr (u.artifacts.map artifactToJVal)),
        ("created_at", .str u.created_at)]

/-- Receipt::unsigned: the unsigned view, dropping cid and signature. -/
def Receipt.unsigned (r : Receipt) : UnsignedReceipt :=
  { work_id := r.work_id, tenant := r.tenant, topic := r.topic, status := r.status,
    idem_key := r.idem_key, plan_hash := r.plan_hash, policy_trace := r.policy_trace,
    stage_time_ms := r.stage_time_ms, artifacts := r.artifacts, created_at := r.created_at }

/-- Receipt::computed_cid: cid_for of the unsigned view. -/
def computed_cid (r : Receipt) : Except CanonError String :=
  cid_for (unsignedToJVal r.unsigned)

/-- Receipt::cid_matches: stored cid compared with the recomputed one. -/
def cid_matches (r : Receipt) : Except CanonError Bool :=
  (computed_cid r).map (fun c => r.cid == c)

/-- aurea-core WorkUnit. -/
structure WorkUnit where
  id : String
  tenant : String
  topic : String
  idem_key : Option String
  payload : JVal
  submitted_at : String
deriving DecidableEq

/-- WorkUnit::plan_hash: cid_for of the payload. -/
def WorkUnit.plan_hash (w : WorkUnit) : Except CanonError String := cid_for w.payload

/-- WorkUnit::effective_idem_key: the provided key, or the plan hash. -/
def WorkUnit.effective_idem_key (w : WorkUnit) : Except CanonError String :=
  match w.idem_key with
  | some k => .ok k
  | none => w.plan_hash

/-- aurea-storage QueuedJob. Queue timestamps are milliseconds. -/
structure QueuedJob where
  seq : Nat
  work : WorkUnit
  attempt : Nat
  accepted_at : Nat
  leased_at : Option Nat
  lease_expires_at : Option Nat
deriving DecidableEq

/-- aurea-runtime ReceiptVerification. -/
structure ReceiptVerification where
  ok : Bool
  cid_match : Bool
  signature_valid : Bool
deriving DecidableEq

/-- Errors surfaced by Runtime::sign_receipt (anyhow in the source). -/
inductive SignError where
  | missingIdemKey
  | canon (e : CanonError)
deriving DecidableEq

/-- Errors surfaced (thrown) by Runtime::verify_receipt and its
verify_signature helper: canonicalization failures from cid_matches and
the four context / anyhow errors of verify_signature. -/
inductive VerifyError where
  | canon (e : CanonError)
  | invalidB64PublicKey
  | invalidB64Signature
  | invalidPublicKeyLen
  | invalidSignatureLen
  | invalidVerifyingKey
deriving DecidableEq

/-- aurea-runtime Runtime::sign_receipt. The Ed25519 signer (a dependency,
ed25519_dalek) is abstracted as the byte-level function sign together
with the raw public key bytes; everything the repository's code does —
idem-key requirement, plan hash, the stage-time map with its two keys in
BTreeMap order, cid derivation, base64 of key and signature, assembling
the receipt from the unsigned fields — is concrete. -/
def sign_receipt (sign : List Nat → List Nat) (pubKeyBytes : List Nat) (kid : String)
    (job : QueuedJob) (status : WorkStatus) (policy_trace : List PolicyEntry)
    (ttft_ms ttr_ms : Nat) (created_at : String) : Except SignError Receipt :=
  match job.work.idem_key with
  | none => .error .missingIdemKey
  | some idem_key =>
    match job.work.plan_hash with
    | .error e => .error (.canon e)
    | .ok plan_hash =>
      let stage_time_ms := [("ttft_ms", ttft_ms), ("ttr_ms", ttr_ms)]
      let unsigned : UnsignedReceipt :=
        { work_id := job.work.id, tenant := job.work.tenant, topic := job.work.topic,
          status, idem_key, plan_hash, policy_trace, stage_time_ms,
          artifacts := [], created_at }
      match cid_for (unsignedToJVal unsigned) with
      | .error e => .error (.canon e)
      | .ok cid =>
        let signature : ReceiptSignature :=
          { alg := "ed25519", kid,
            public_key := (b64encode pubKeyBytes).asString,
            signature := (b64encode (sign (utf8Encode cid))).asString }
        .ok { cid, work_id := unsigned.work_id, tenant := unsigned.tenant,
              topic := unsigned.topic, status := unsigned.status,
              idem_key := unsigned.idem_key, plan_hash := unsigned.plan_hash,
              policy_trace := unsigned.policy_trace,
              stage_time_ms := unsigned.stage_time_ms,
              artifacts := unsigned.artifacts, created_at := unsigned.created_at,
              signature }

/-- aurea-runtime verify_signature. The Ed25519 key parsing and
verification of the dependency are abstracted as ed_verify: none models
VerifyingKey::from_bytes rejecting the key bytes, some b the boolean
verification outcome for (key bytes, signature bytes, message). All
repository-level logic — the algorithm gate, the two base64 decodes,
the two length checks and the order of the resulting errors — is
concrete. -/
def verify_signature (ed_verify : List Nat → List Nat → List Nat → Option Bool)
    (r : Receipt) : Except VerifyError Bool :=
  if r.signature.alg ≠ "ed25519" then .ok false
  else
    match b64decode r.signature.public_key with
    | none => .error .invalidB64PublicKey
    | some vk_bytes =>
      match b64decode r.signature.signature with
      | none => .error .invalidB64Signature
      | some sig_bytes =>
        if vk_bytes.length ≠ 32 then .error .invalidPublicKeyLen
        else if sig_bytes.length ≠ 64 then .error .invalidSignatureLen
        else
          match ed_verify vk_bytes sig_bytes (utf8Encode r.cid) with
          | none => .error .invalidVerifyingKey
          | some b => .ok b

/-- aurea-runtime Runtime::verify_receipt: cid_matches first (propagating
its canonicalization error), then verify_signature (propagating its
errors), then the verdict with ok the conjunction. -/
def verify_receipt (ed_verify : List Nat → List Nat → List Nat → Option Bool)
    (r : Receipt) : Except VerifyError ReceiptVerification :=
  match cid_matches r with
  | .error e => .error (.canon e)
  | .ok cid_match =>
    match verify_signature ed_verify r with
    | .error e => .error e
    | .ok signature_valid =>
      .ok { ok := cid_match && signature_valid, cid_match, signature_valid }

/-! The persistent store (aurea-storage RedbStore). redb tables are
modelled as association lists; the u64-keyed job tables are kept in
ascending key order, matching redb's B-tree iteration order, via
insertion in sorted position. The (de)serialization of records through
serde_json on table writes and reads round-trips and is elided. -/

/-- aurea-storage IdemRecord. -/
structure IdemRecord where
  tenant : String
  topic : String
  idem_key : String
  work_id : String
  status : String
  receipt_cid : Option String
  updated_at : Nat
deriving DecidableEq

/-- aurea-storage EnqueueResult. -/
inductive EnqueueResult where
  | enqueued (seq : Nat) (work_id : String)
  | duplicateReceipt (work_id : String) (receipt_cid : String)
  | duplicateInFlight (work_id : String)
deriving DecidableEq

/-- The five redb tables of RedbStore. -/
structure Store where
  ready_jobs : List (Nat × QueuedJob)
  leased_jobs : List (Nat × QueuedJob)
  receipts : List (String × Receipt)
  idem_keys : List (String × IdemRecord)
  meta : List (String × Nat)
deriving DecidableEq

/-- Lookup in a string-keyed table. -/
def tableGet {v : Type} (t : List (String × v)) (k : String) : Option v :=
  (t.find? (fun kv => kv.1 == k)).map Prod.snd

/-- Insert or replace in a string-keyed table. -/
def strInsert {v : Type} (t : List (String × v)) (k : String) (x : v) : List (String × v) :=
  match t with
  | [] => [(k, x)]
  | (k0, x0) :: rest => if k == k0 then (k, x) :: rest else (k0, x0) :: strInsert rest k x

/-- Remove from a string-keyed table. -/
def strRemove {v : Type} (t : List (String × v)) (k : String) : List (String × v) :=
  t.filter (fun kv => kv.1 != k)

/-- Lookup in a u64-keyed table. -/
def btreeGet {v : Type} (t : List (Nat × v)) (k : Nat) : Option v :=
  (t.find? (fun kv => kv.1 == k)).map Prod.snd

/-- Insert into a u64-keyed table at the sorted position (replacing an
equal key), preserving redb's ascending key order. -/
def btreeInsert {v : Type} (t : List (Nat × v)) (k : Nat) (x : v) : List (Nat × v) :=
  match t with
  | [] => [(k, x)]
  | (k0, x0) :: rest =>
    if k < k0 then (k, x) :: (k0, x0) :: rest
    else if k = k0 then (k, x) :: rest
    else (k0, x0) :: btreeInsert rest k x

/-- Remove from a u64-keyed table. -/
def btreeRemove {v : Type} (t : List (Nat × v)) (k : Nat) : List (Nat × v) :=
  t.filter (fun kv => kv.1 != k)

/-- aurea-storage idem_lookup_key: tenant, topic and idem key joined with
the unit separator. -/
def idem_lookup_key (tenant topic idem_key : String) : String :=
  tenant ++ "\x1F" ++ topic ++ "\x1F" ++ idem_key

/-- aurea-storage inc_counter: u64 saturating add on a meta key, absent
keys read as 0. -/
def inc_counter (meta : List (String × Nat)) (key : String) (delta : Nat) :
    List (String × Nat) :=
  strInsert meta key (min ((tableGet meta key).getD 0 + delta) u64Max)

/-- aurea-storage RedbStore::enqueue_work_idempotent. One transaction: the
idem record decides the disposition; a fresh enqueue allocates the next
seq (meta next_job_seq, defaulting to 1), inserts the job into
ready_jobs with attempt 0 and no lease, and inserts the queued idem
record without receipt_cid. -/
def enqueue_work_idempotent (st : Store) (now : Nat) (work : WorkUnit) :
    Except String (Store × EnqueueResult) :=
  match work.idem_key with
  | none => .error "work.idem_key must be set before enqueue"
  | some idem_key =>
    let key := idem_lookup_key work.tenant work.topic idem_key
    match tableGet st.idem_keys key with
    | some record =>
      match record.receipt_cid with
      | some receipt_cid => .ok (st, .duplicateReceipt record.work_id receipt_cid)
      | none => .ok (st, .duplicateInFlight record.work_id)
    | none =>
      let seq := (tableGet st.meta "next_job_seq").getD 1
      let meta2 := strInsert st.meta "next_job_seq" (seq + 1)
      let job : QueuedJob :=
        { seq, work, attempt := 0, accepted_at := now,
          leased_at := none, lease_expires_at := none }
      let record : IdemRecord :=
        { tenant := work.tenant, topic := work.topic, idem_key,
          work_id := work.id, status := "queued", receipt_cid := none, updated_at := now }
      .ok ({ st with meta := meta2,
                     ready_jobs := btreeInsert st.ready_jobs seq job,
                     idem_keys := strInsert st.idem_keys key record },
           .enqueued seq work.id)

/-- aurea-storage RedbStore::lease_next: the first entry of the ready
iterator (smallest key in redb's order; the model's ready_jobs list is
kept in that order) is removed, its attempt incremented and its lease
stamped, and it is inserted into leased_jobs. -/
def lease_next (st : Store) (now lease_ttl_ms : Nat) : Option QueuedJob × Store :=
  match st.ready_jobs with
  | [] => (none, st)
  | (seq, job0) :: _ =>
    let job := { job0 with attempt := job0.attempt + 1, leased_at := some now,
                           lease_expires_at := some (now + lease_ttl_ms) }
    (some job, { st with ready_jobs := btreeRemove st.ready_jobs seq,
                         leased_jobs := btreeInsert st.leased_jobs seq job })

/-- aurea-storage RedbStore::complete_leased. -/
def complete_leased (st : Store) (seq : Nat) : Store :=
  { st with leased_jobs := btreeRemove st.leased_jobs seq }

/-- aurea-storage RedbStore::reassign_expired_leases: every leased entry
whose lease_expires_at is at most now is removed from leased_jobs and
reinserted into ready_jobs under its original seq with the lease fields
cleared; reassigns_total is incremented by the count. -/
def reassign_expired_leases (st : Store) (now : Nat) : Nat × Store :=
  let to_move := st.leased_jobs.filter
    (fun kv => match kv.2.lease_expires_at with
               | some expires => decide (expires ≤ now)
               | none => false)
  if to_move.isEmpty then (0, st)
  else
    let moved := to_move.foldl
      (fun (acc : Store) kv =>
        let job2 := { kv.2 with leased_at := none, lease_expires_at := none }
        { acc with leased_jobs := btreeRemove acc.leased_jobs kv.1,
                   ready_jobs := btreeInsert acc.ready_jobs kv.1 job2 })
      st
    (to_move.length,
     { moved with meta := inc_counter moved.meta "reassigns_total" to_move.length })

/-- aurea-storage RedbStore::put_receipt: store the receipt under its cid
and upsert the idem record for (tenant, topic, idem_key), setting the
final status name and receipt_cid. -/
def put_receipt (st : Store) (now : Nat) (r : Receipt) : Store :=
  let key := idem_lookup_key r.tenant r.topic r.idem_key
  let record0 := (tableGet st.idem_keys key).getD
    { tenant := r.tenant, topic := r.topic, idem_key := r.idem_key,
      work_id := r.work_id, status := "queued", receipt_cid := none, updated_at := now }
  let record := { record0 with status := status_label r.status,
                               receipt_cid := some r.cid, updated_at := now }
  { st with receipts := strInsert st.receipts r.cid r,
            idem_keys := strInsert st.idem_keys key record }

/-- Report of purge_receipts (shape fixed by tests/retention.rs). -/
structure PurgeReport where
  deleted_receipts : Nat
  deleted_idem_keys : Nat
deriving DecidableEq

/-- Modelled from the spec: RedbStore::purge_receipts is exercised by
tests/retention.rs and specified in the storage operation contracts, but
its implementation is not among the provided sources. Per the spec it
removes each listed receipt and its idempotency record; the report
counts the entries that were present (the test asserts both counts). -/
def purge_receipts (st : Store) (receipts : List Receipt) : Store × PurgeReport :=
  receipts.foldl
    (fun (acc : Store × PurgeReport) r =>
      let s := acc.1
      let key := idem_lookup_key r.tenant r.topic r.idem_key
      let hadR := (tableGet s.receipts r.cid).isSome
      let hadI := (tableGet s.idem_keys key).isSome
      ({ s with receipts := strRemove s.receipts r.cid,
                idem_keys := strRemove s.idem_keys key },
       { deleted_receipts := acc.2.deleted_receipts + (if hadR then 1 else 0),
         deleted_idem_keys := acc.2.deleted_idem_keys + (if hadI then 1 else 0) }))
    (st, { deleted_receipts := 0, deleted_idem_keys := 0 })

/-! The day anchor (aurea-receipts). -/

/-- aurea-receipts DayAnchor. -/
structure DayAnchor where
  date : String
  root : String
  count : Nat
  generated_at : String
deriving DecidableEq

/-- aurea-receipts blake3_hex. -/
def blake3_hex (bytes : List Nat) : String := hexOfBytes (blake3Hash bytes)

/-- One level of the Merkle reduction: hash adjacent pairs of the level's
strings (as UTF-8), duplicating a trailing lone element. -/
def merkleLevel : List String → List String
  | [] => []
  | [l] => [blake3_hex (utf8Encode l ++ utf8Encode l)]
  | l :: r :: rest => blake3_hex (utf8Encode l ++ utf8Encode r) :: merkleLevel rest

theorem merkleLevel_length (l : List String) :
    (merkleLevel l).length = (l.length + 1) / 2 := by
  induction l using merkleLevel.induct with
  | case1 => simp [merkleLevel]
  | case2 => simp [merkleLevel]
  | case3 a b rest ih => simp [merkleLevel, ih]; omega

/-- The while loop of merkle_root: reduce levels until one string remains
(an empty level yields the empty string, the source's
unwrap_or_default, which is unreachable from merkle_root). -/
def merkleReduce (level : List String) : String :=
  if level.length ≤ 1 then level.headD ""
  else merkleReduce (merkleLevel level)
termination_by level.length
decreasing_by
  rw [merkleLevel_length]
  omega

/-- aurea-receipts merkle_root: the empty input hashes the empty byte
string; otherwise the leaves are the BLAKE3 hex of each value and the
levels are reduced pairwise. -/
def merkle_root (values : List String) : String :=
  if values.isEmpty then blake3_hex []
  else merkleReduce (values.map (fun v => blake3_hex (utf8Encode v)))

/-- aurea-receipts anchor_day: copy and sort the CIDs (Vec::sort is a
stable sort by Ord; insertion sort is the stable sort used here), take
the Merkle root, count the leaves; generated_at is the passed-in
rendering of Utc::now. -/
def anchor_day (date : String) (receipt_cids : List String) (now : String) : DayAnchor :=
  let leaves := List.insertionSort strLeRel receipt_cids
  { date, root := merkle_root leaves, count := leaves.length, generated_at := now }

/-! Helper lemmas about the table operations. -/

theorem tableGet_strInsert_self {v : Type} (t : List (String × v)) (k : String) (x : v) :
    tableGet (strInsert t k x) k = some x := by
  induction t with
  | nil => simp [strInsert, tableGet]
  | cons kv rest ih =>
    by_cases h : k = kv.1
    · simp [strInsert, tableGet, h]
    · simp [strInsert, tableGet, h, Ne.symm h] at ih ⊢
      exact ih

theorem tableGet_strRemove_self {v : Type} (t : List (String × v)) (k : String) :
    tableGet (strRemove t k) k = none := by
  induction t with
  | nil => simp [strRemove, tableGet]
  | cons kv rest ih =>
    by_cases h : kv.1 = k
    · simp only [strRemove, List.filter, bne, h, beq_self_eq_true, Bool.not_true]
      simp only [strRemove] at ih
      exact ih
    · simp only [strRemove, List.filter, bne]
      rw [show (kv.1 == k) = false from beq_eq_false_iff_ne.mpr h]
      simp only [Bool.not_false, tableGet, List.find?]
      rw [show (kv.1 == k) = false from beq_eq_false_iff_ne.mpr h]
      simp only [strRemove, tableGet] at ih
      exact ih

theorem btreeGet_btreeInsert_self {v : Type} (t : List (Nat × v)) (k : Nat) (x : v) :
    btreeGet (btreeInsert t k x) k = some x := by
  induction t with
  | nil => simp [btreeInsert, btreeGet]
  | cons kv rest ih =>
    simp only [btreeInsert]
    by_cases h1 : k < kv.1
    · simp [h1, btreeGet]
    · by_cases h2 : k = kv.1
      · simp [h1, h2, btreeGet]
      · simp only [if_neg h1, if_neg h2]
        simp [btreeGet, Ne.symm h2] at ih ⊢
        exact ih

/-! Claim theorems. -/

/-- C2 — enqueue_work_idempotent dispositions and the put_receipt upgrade.
Part 1: with the idem key set and no idempotency record present, the
work is enqueued under the next seq (defaulting to 1), the ready queue
gains the job with attempt 0 and no lease, the idem record is created
without receipt_cid carrying the work's id, and the seq counter moves
on. Part 2: an existing record without receipt_cid yields
DuplicateInFlight with that record's work_id and leaves the store
unchanged. Part 3: an existing record with a receipt_cid yields
DuplicateReceipt with that record's work_id and cid and leaves the
store unchanged. Part 4: after put_receipt r the record at r's key
exists and carries receipt_cid = r.cid, and an enqueue with the same
(tenant, topic, idem_key) returns DuplicateReceipt with the stored
work_id and the cid written by put_receipt, again leaving the store
unchanged. -/
theorem enqueue_idempotent_contract :
    (∀ (st : Store) (now : Nat) (w : WorkUnit) (k : String),
      w.idem_key = some k →
      tableGet st.idem_keys (idem_lookup_key w.tenant w.topic k) = none →
      ∀ st2 res, enqueue_work_idempotent st now w = .ok (st2, res) →
        res = .enqueued ((tableGet st.meta "next_job_seq").getD 1) w.id ∧
        btreeGet st2.ready_jobs ((tableGet st.meta "next_job_seq").getD 1) =
          some { seq := (tableGet st.meta "next_job_seq").getD 1, work := w, attempt := 0,
                 accepted_at := now, leased_at := none, lease_expires_at := none } ∧
        tableGet st2.idem_keys (idem_lookup_key w.tenant w.topic k) =
          some { tenant := w.tenant, topic := w.topic, idem_key := k, work_id := w.id,
                 status := "queued", receipt_cid := none, updated_at := now } ∧
        tableGet st2.meta "next_job_seq" =
          some ((tableGet st.meta "next_job_seq").getD 1 + 1)) ∧
    (∀ (st : Store) (now : Nat) (w : WorkUnit) (k : String) (rec : IdemRecord),
      w.idem_key = some k →
      tableGet st.idem_keys (idem_lookup_key w.tenant w.topic k) = some rec →
      rec.receipt_cid = none →
      enqueue_work_idempotent st now w = .ok (st, .duplicateInFlight rec.work_id)) ∧
    (∀ (st : Store) (now : Nat) (w : WorkUnit) (k : String) (rec : IdemRecord)
       (cid : String),
      w.idem_key = some k →
      tableGet st.idem_keys (idem_lookup_key w.tenant w.topic k) = some rec →
      rec.receipt_cid = some cid →
      enqueue_work_idempotent st now w = .ok (st, .duplicateReceipt rec.work_id cid)) ∧
    (∀ (st : Store) (now now2 : Nat) (r : Receipt) (w : WorkUnit) (rec : IdemRecord),
      w.idem_key = some r.idem_key → w.tenant = r.tenant → w.topic = r.topic →
      tableGet (put_receipt st now r).idem_keys
        (idem_lookup_key r.tenant r.topic r.idem_key) = some rec →
      rec.receipt_cid = some r.cid ∧
      enqueue_work_idempotent (put_receipt st now r) now2 w =
        .ok (put_receipt st now r, .duplicateReceipt rec.work_id r.cid)) := by
  refine ⟨?_, ?_, ?_, ?_⟩
  · intro st now w k hk hget st2 res henq
    rw [enqueue_work_idempotent, hk] at henq
    simp only [hget, Except.ok.injEq, Prod.mk.injEq] at henq
    obtain ⟨hst2, hres⟩ := henq
    subst hst2
    refine ⟨hres.symm, ?_, ?_, ?_⟩
    · exact btreeGet_btreeInsert_self ..
    · exact tableGet_strInsert_self ..
    · exact tableGet_strInsert_self ..
  · intro st now w k rec hk hget hcid
    rw [enqueue_work_idempotent, hk]
    simp [hget, hcid]
  · intro st now w k rec cid hk hget hcid
    rw [enqueue_work_idempotent, hk]
    simp [hget, hcid]
  · intro st now now2 r w rec hk ht htp hget
    have hrec : rec = { (tableGet st.idem_keys
        (idem_lookup_key r.tenant r.topic r.idem_key)).getD
          { tenant := r.tenant, topic := r.topic, idem_key := r.idem_key,
            work_id := r.work_id, status := "queued", receipt_cid := none,
            updated_at := now } with
        status := status_label r.status, receipt_cid := some r.cid, updated_at := now } := by
      have := tableGet_strInsert_self st.idem_keys
        (idem_lookup_key r.tenant r.topic r.idem_key)
        ({ (tableGet st.idem_keys (idem_lookup_key r.tenant r.topic r.idem_key)).getD
            { tenant := r.tenant, topic := r.topic, idem_key := r.idem_key,
              work_id := r.work_id, status := "queued", receipt_cid := none,
              updated_at := now } with
          status := status_label r.status, receipt_cid := some r.cid, updated_at := now })
      rw [put_receipt] at hget
      simp only at hget
      rw [this] at hget
      exact (Option.some_inj.mp hget).symm
    constructor
    · rw [hrec]
    · rw [enqueue_work_idempotent, hk, ht, htp]
      simp [hget, hrec]

/-- Empty store (all five tables empty), as RedbStore::open leaves a fresh
database. -/
def store0 : Store :=
  { ready_jobs := [], leased_jobs := [], receipts := [], idem_keys := [], meta := [] }

/-- A concrete work unit with an explicit idem key. -/
def wu1 : WorkUnit :=
  { id := "w-1", tenant := "t1", topic := "echo:test", idem_key := some "k1",
    payload := .null, submitted_at := "2026-02-19T00:00:00Z" }

/-- A concrete receipt for wu1's idem key. -/
def rc1 : Receipt :=
  { cid := "cid-1", work_id := "w-1", tenant := "t1", topic := "echo:test",
    status := .done, idem_key := "k1", plan_hash := "ph", policy_trace := [],
    stage_time_ms := [], artifacts := [], created_at := "2026-02-19T00:00:01Z",
    signature := { alg := "ed25519", kid := "kid", public_key := "pk", signature := "sg" } }

/-- The store and disposition after the first enqueue of wu1 into store0. -/
def storeAfter1 : Store × EnqueueResult :=
  match enqueue_work_idempotent store0 5 wu1 with
  | .ok p => p
  | .error _ => (store0, .duplicateInFlight "")

/-- The idem record created by the first enqueue. -/
def idemRec1 : IdemRecord :=
  { tenant := "t1", topic := "echo:test", idem_key := "k1", work_id := "w-1",
    status := "queued", receipt_cid := none, updated_at := 5 }

/-- The store after put_receipt of rc1 on the first-enqueue store. -/
def storeAfterPut : Store := put_receipt storeAfter1.1 9 rc1

/-- The idem record after put_receipt upgraded it. -/
def idemRec2 : IdemRecord :=
  { tenant := "t1", topic := "echo:test", idem_key := "k1", work_id := "w-1",
    status := "done", receipt_cid := some "cid-1", updated_at := 9 }

/-- Witness for C2: the three dispositions and the put_receipt upgrade on a
concrete store (enqueue into the empty store, re-enqueue while in
flight, put_receipt, re-enqueue after completion). -/
theorem enqueue_idempotent_contract_witness :
    (enqueue_work_idempotent store0 5 wu1 = .ok (storeAfter1.1, storeAfter1.2) ∧
     storeAfter1.2 = .enqueued ((tableGet store0.meta "next_job_seq").getD 1) wu1.id ∧
     btreeGet storeAfter1.1.ready_jobs ((tableGet store0.meta "next_job_seq").getD 1) =
       some { seq := (tableGet store0.meta "next_job_seq").getD 1, work := wu1, attempt := 0,
              accepted_at := 5, leased_at := none, lease_expires_at := none } ∧
     tableGet storeAfter1.1.idem_keys (idem_lookup_key wu1.tenant wu1.topic "k1") =
       some { tenant := wu1.tenant, topic := wu1.topic, idem_key := "k1", work_id := wu1.id,
              status := "queued", receipt_cid := none, updated_at := 5 } ∧
     tableGet storeAfter1.1.meta "next_job_seq" =
       some ((tableGet store0.meta "next_job_seq").getD 1 + 1)) ∧
    enqueue_work_idempotent storeAfter1.1 7 wu1 =
      .ok (storeAfter1.1, .duplicateInFlight idemRec1.work_id) ∧
    (idemRec2.receipt_cid = some rc1.cid ∧
     enqueue_work_idempotent (put_receipt storeAfter1.1 9 rc1) 11 wu1 =
       .ok (put_receipt storeAfter1.1 9 rc1, .duplicateReceipt idemRec2.work_id rc1.cid)) := by
  refine ⟨⟨by decide, ?_⟩, ?_, ?_⟩
  · exact (enqueue_idempotent_contract.1 store0 5 wu1 "k1" (by decide) (by decide)
      storeAfter1.1 storeAfter1.2 (by decide))
  · exact enqueue_idempotent_contract.2.1 storeAfter1.1 7 wu1 "k1" idemRec1
      (by decide) (by decide) (by decide)
  · exact enqueue_idempotent_contract.2.2.2 storeAfter1.1 9 11 rc1 wu1 idemRec2
      (by decide) (by decide) (by decide) (by decide)

theorem btreeGet_btreeInsert_ne {v : Type} (t : List (Nat × v)) (k k2 : Nat) (x : v)
    (h : k2 ≠ k) : btreeGet (btreeInsert t k x) k2 = btreeGet t k2 := by
  induction t with
  | nil => simp [btreeInsert, btreeGet, Ne.symm h]
  | cons kv rest ih =>
    simp only [btreeInsert]
    by_cases h1 : k < kv.1
    · rw [if_pos h1]
      simp [btreeGet, Ne.symm h]
    · by_cases h2 : k = kv.1
      · subst h2
        rw [if_neg h1, if_pos rfl]
        simp [btreeGet, Ne.symm h]
      · rw [if_neg h1, if_neg h2]
        by_cases h3 : kv.1 = k2
        · simp [btreeGet, h3]
        · simp only [btreeGet, List.find?, beq_eq_false_iff_ne.mpr h3]
          simpa only [btreeGet] using ih

theorem btreeGet_btreeRemove_self {v : Type} (t : List (Nat × v)) (k : Nat) :
    btreeGet (btreeRemove t k) k = none := by
  induction t with
  | nil => simp [btreeRemove, btreeGet]
  | cons kv rest ih =>
    by_cases h : kv.1 = k
    · rw [btreeRemove, List.filter_cons, if_neg (by simp [bne, h])]
      simpa only [btreeRemove] using ih
    · rw [btreeRemove, List.filter_cons, if_pos (by simp [bne, h])]
      simp only [btreeGet, List.find?, beq_eq_false_iff_ne.mpr h]
      simpa only [btreeRemove, btreeGet] using ih

theorem btreeGet_btreeRemove_ne {v : Type} (t : List (Nat × v)) (k k2 : Nat)
    (h : k2 ≠ k) : btreeGet (btreeRemove t k) k2 = btreeGet t k2 := by
  induction t with
  | nil => simp [btreeRemove, btreeGet]
  | cons kv rest ih =>
    by_cases h1 : kv.1 = k
    · rw [btreeRemove, List.filter_cons, if_neg (by simp [bne, h1])]
      rw [show btreeGet (List.filter (fun kv => kv.1 != k) rest) k2 =
          btreeGet rest k2 from by simpa only [btreeRemove] using ih]
      have e2 : (kv.1 == k2) = false := beq_eq_false_iff_ne.mpr (by rw [h1]; exact Ne.symm h)
      simp [btreeGet, List.find?, e2]
    · rw [btreeRemove, List.filter_cons, if_pos (by simp [bne, h1])]
      by_cases h2 : kv.1 = k2
      · simp [btreeGet, List.find?, h2]
      · simp only [btreeGet, List.find?, beq_eq_false_iff_ne.mpr h2]
        simpa only [btreeRemove, btreeGet] using ih

/-- The one reassignment fold step of reassign_expired_leases. -/
def reassignStep (acc : Store) (kv : Nat × QueuedJob) : Store :=
  let job2 := { kv.2 with leased_at := none, lease_expires_at := none }
  { acc with leased_jobs := btreeRemove acc.leased_jobs kv.1,
             ready_jobs := btreeInsert acc.ready_jobs kv.1 job2 }

theorem reassign_foldl_untouched (pairs : List (Nat × QueuedJob)) (acc : Store)
    (s : Nat) (hs : s ∉ pairs.map Prod.fst) :
    btreeGet (pairs.foldl reassignStep acc).ready_jobs s = btreeGet acc.ready_jobs s ∧
    btreeGet (pairs.foldl reassignStep acc).leased_jobs s = btreeGet acc.leased_jobs s := by
  induction pairs generalizing acc with
  | nil => exact ⟨rfl, rfl⟩
  | cons kv rest ih =>
    simp only [List.map, List.mem_cons, not_or] at hs
    obtain ⟨hs1, hs2⟩ := hs
    have := ih (reassignStep acc kv) hs2
    refine ⟨?_, ?_⟩
    · rw [List.foldl_cons, this.1]
      exact btreeGet_btreeInsert_ne _ _ _ _ hs1
    · rw [List.foldl_cons, this.2]
      exact btreeGet_btreeRemove_ne _ _ _ hs1

theorem reassign_foldl_moves (pairs : List (Nat × QueuedJob)) (acc : Store)
    (hnd : (pairs.map Prod.fst).Nodup) (seq : Nat) (job : QueuedJob)
    (hmem : (seq, job) ∈ pairs) :
    btreeGet (pairs.foldl reassignStep acc).ready_jobs seq =
      some { job with leased_at := none, lease_expires_at := none } ∧
    btreeGet (pairs.foldl reassignStep acc).leased_jobs seq = none := by
  induction pairs generalizing acc with
  | nil => cases hmem
  | cons kv rest ih =>
    simp only [List.map, List.nodup_cons] at hnd
    obtain ⟨hk, hnd2⟩ := hnd
    rcases List.mem_cons.mp hmem with hhead | htail
    · subst hhead
      have hun := reassign_foldl_untouched rest (reassignStep acc (seq, job)) seq hk
      refine ⟨?_, ?_⟩
      · rw [List.foldl_cons, hun.1]
        simp only [reassignStep]
        exact btreeGet_btreeInsert_self ..
      · rw [List.foldl_cons, hun.2]
        simp only [reassignStep]
        exact btreeGet_btreeRemove_self ..
    · exact ih (reassignStep acc kv) hnd2 htail

/-- C6 — FIFO lease order and seq-preserving reassignment. Part 1: when the
ready queue (kept in redb's ascending key order) is non-empty, lease_next
removes exactly the entry whose seq is least among all ready entries,
returns it with its attempt incremented and its lease stamped now to
now + ttl, and files it under the same seq in leased_jobs. Part 2: every
leased job whose lease_expires_at is at most now is moved back by
reassign_expired_leases to ready_jobs under its original seq with its
attempt preserved and its lease fields cleared, and disappears from
leased_jobs; a job leased at least once has attempt at least 1, so a
reassigned-then-released job reaches attempt at least 2 (the lease part
increments it again), at its old queue position rather than the tail. -/
theorem lease_fifo_and_reassign_preserves_seq :
    (∀ (st : Store) (now ttl seq : Nat) (job : QueuedJob)
       (rest : List (Nat × QueuedJob)),
      st.ready_jobs = (seq, job) :: rest →
      List.Sorted (fun a b => a.1 ≤ b.1) st.ready_jobs →
      (∀ kv ∈ st.ready_jobs, seq ≤ kv.1) ∧
      lease_next st now ttl =
        (some { job with attempt := job.attempt + 1, leased_at := some now,
                         lease_expires_at := some (now + ttl) },
         { st with ready_jobs := btreeRemove st.ready_jobs seq,
                   leased_jobs := btreeInsert st.leased_jobs seq
                     { job with attempt := job.attempt + 1, leased_at := some now,
                                lease_expires_at := some (now + ttl) } })) ∧
    (∀ (st : Store) (now seq : Nat) (job : QueuedJob) (e : Nat),
      (st.leased_jobs.map Prod.fst).Nodup →
      (seq, job) ∈ st.leased_jobs →
      job.lease_expires_at = some e → e ≤ now →
      btreeGet (reassign_expired_leases st now).2.ready_jobs seq =
        some { job with leased_at := none, lease_expires_at := none } ∧
      btreeGet (reassign_expired_leases st now).2.leased_jobs seq = none) := by
  constructor
  · intro st now ttl seq job rest hready hsorted
    constructor
    · intro kv hkv
      rw [hready] at hkv
      rcases List.mem_cons.mp hkv with h | h
      · rw [h]
      · rw [hready] at hsorted
        exact List.rel_of_sorted_cons hsorted kv h
    · rw [lease_next, hready]
  · intro st now seq job e hnd hmem hexp hle
    have hpred : (fun kv : Nat × QueuedJob =>
        match kv.2.lease_expires_at with
        | some expires => decide (expires ≤ now)
        | none => false) (seq, job) = true := by
      simp only [hexp]
      exact decide_eq_true hle
    have hmem2 : (seq, job) ∈ st.leased_jobs.filter
        (fun kv => match kv.2.lease_expires_at with
                   | some expires => decide (expires ≤ now)
                   | none => false) :=
      List.mem_filter.mpr ⟨hmem, hpred⟩
    have hnd2 : ((st.leased_jobs.filter
        (fun kv => match kv.2.lease_expires_at with
                   | some expires => decide (expires ≤ now)
                   | none => false)).map Prod.fst).Nodup :=
      hnd.sublist (List.Sublist.map Prod.fst (List.filter_sublist _))
    have hne : (st.leased_jobs.filter
        (fun kv => match kv.2.lease_expires_at with
                   | some expires => decide (expires ≤ now)
                   | none => false)).isEmpty = false := by
      cases hl : st.leased_jobs.filter
          (fun kv => match kv.2.lease_expires_at with
                     | some expires => decide (expires ≤ now)
                     | none => false) with
      | nil =>
        rw [hl] at hmem2
        cases hmem2
      | cons a l => rfl
    have hmain := reassign_foldl_moves _ st hnd2 seq job hmem2
    rw [reassign_expired_leases]
    simp only [hne, Bool.false_eq_true, if_false, reassignStep] at hmain ⊢
    exact hmain

/-- A fresh queued job under a given seq. -/
def qjob (n : Nat) : QueuedJob :=
  { seq := n, work := wu1, attempt := 0, accepted_at := 0,
    leased_at := none, lease_expires_at := none }

/-- A store with two ready jobs under seqs 1 and 2. -/
def c6store : Store := { store0 with ready_jobs := [(1, qjob 1), (2, qjob 2)] }

/-- A store with one leased job under seq 3 whose lease expired at 10. -/
def c6storeLeased : Store :=
  { store0 with leased_jobs :=
      [(3, { qjob 3 with attempt := 1, leased_at := some 5, lease_expires_at := some 10 })] }

/-- Witness for C6: leasing from a two-job ready queue takes seq 1 with
attempt 1 and the stamped lease; reassigning the expired seq-3 lease at
time 50 puts it back under seq 3 with attempt preserved and clears it
from leased; and the composed flow lease, expire, reassign, lease again
yields the same seq with attempt 2. -/
theorem lease_fifo_and_reassign_witness :
    lease_next c6store 5 10 =
      (some { qjob 1 with attempt := 1, leased_at := some 5, lease_expires_at := some 15 },
       { c6store with ready_jobs := btreeRemove c6store.ready_jobs 1,
                      leased_jobs := btreeInsert c6store.leased_jobs 1
                        { qjob 1 with attempt := 1, leased_at := some 5,
                                      lease_expires_at := some 15 } }) ∧
    (btreeGet (reassign_expired_leases c6storeLeased 50).2.ready_jobs 3 =
      some { qjob 3 with attempt := 1, leased_at := none, lease_expires_at := none } ∧
     btreeGet (reassign_expired_leases c6storeLeased 50).2.leased_jobs 3 = none) ∧
    (lease_next (reassign_expired_leases (lease_next c6store 5 10).2 20).2 20 10).1 =
      some { qjob 1 with attempt := 2, leased_at := some 20, lease_expires_at := some 30 } := by
  refine ⟨?_, ?_, by decide⟩
  · exact (lease_fifo_and_reassign_preserves_seq.1 c6store 5 10 1 (qjob 1) [(2, qjob 2)]
      rfl (by simp [List.sorted_cons, c6store])).2
  · exact lease_fifo_and_reassign_preserves_seq.2 c6storeLeased 50 3
      { qjob 3 with attempt := 1, leased_at := some 5, lease_expires_at := some 10 } 10
      (by decide) (by decide) rfl (by decide)

/-- C8 — purge_receipts removes the receipt and its idempotency record, so
an enqueue with the purged (tenant, topic, idem_key) finds no record and
is Enqueued again under the next seq rather than deduplicated. -/
theorem purge_receipts_allows_reenqueue (st : Store) (r : Receipt) (w : WorkUnit)
    (now : Nat) (hk : w.idem_key = some r.idem_key) (ht : w.tenant = r.tenant)
    (htp : w.topic = r.topic) :
    tableGet (purge_receipts st [r]).1.receipts r.cid = none ∧
    tableGet (purge_receipts st [r]).1.idem_keys
      (idem_lookup_key r.tenant r.topic r.idem_key) = none ∧
    (enqueue_work_idempotent (purge_receipts st [r]).1 now w).map Prod.snd =
      .ok (.enqueued ((tableGet (purge_receipts st [r]).1.meta "next_job_seq").getD 1)
        w.id) := by
  have hstore : (purge_receipts st [r]).1 =
      { st with receipts := strRemove st.receipts r.cid,
                idem_keys := strRemove st.idem_keys
                  (idem_lookup_key r.tenant r.topic r.idem_key) } := by
    rw [purge_receipts, List.foldl_cons, List.foldl_nil]
  rw [hstore]
  refine ⟨tableGet_strRemove_self .., tableGet_strRemove_self .., ?_⟩
  rw [enqueue_work_idempotent, hk, ht, htp]
  simp only [tableGet_strRemove_self]
  rfl

/-- Witness for C8: purging rc1 from the store that held its receipt and
upgraded idem record empties both entries, the purge report counts one
deletion each (the retention test's assertion), and re-enqueueing wu1
yields Enqueued. -/
theorem purge_receipts_allows_reenqueue_witness :
    wu1.idem_key = some rc1.idem_key ∧
    (purge_receipts storeAfterPut [rc1]).2 =
      { deleted_receipts := 1, deleted_idem_keys := 1 } ∧
    (tableGet (purge_receipts storeAfterPut [rc1]).1.receipts rc1.cid = none ∧
     tableGet (purge_receipts storeAfterPut [rc1]).1.idem_keys
       (idem_lookup_key rc1.tenant rc1.topic rc1.idem_key) = none ∧
     (enqueue_work_idempotent (purge_receipts storeAfterPut [rc1]).1 21 wu1).map Prod.snd =
       .ok (.enqueued
         ((tableGet (purge_receipts storeAfterPut [rc1]).1.meta "next_job_seq").getD 1)
         wu1.id)) :=
  ⟨by decide, by decide,
   purge_receipts_allows_reenqueue storeAfterPut rc1 wu1 21 (by decide) (by decide)
     (by decide)⟩

/-! Order properties of the byte-lexicographic comparison, needed for the
sorted-leaves Merkle anchor. -/

theorem charsLe_total : ∀ a b : List Char, charsLe a b = true ∨ charsLe b a = true := by
  intro a
  induction a with
  | nil => intro b; left; cases b <;> rfl
  | cons x xs ih =>
    intro b
    cases b with
    | nil => right; rfl
    | cons y ys =>
      simp only [charsLe]
      by_cases h1 : x.toNat < y.toNat
      · left
        simp [h1]
      · by_cases h2 : y.toNat < x.toNat
        · right
          simp [h2, h1]
        · simp only [if_neg h1, if_neg h2]
          exact ih ys

theorem charsLe_trans : ∀ a b c : List Char,
    charsLe a b = true → charsLe b c = true → charsLe a c = true := by
  intro a
  induction a with
  | nil => intro b c _ _; rfl
  | cons x xs ih =>
    intro b c hab hbc
    cases b with
    | nil => cases hab
    | cons y ys =>
      cases c with
      | nil => cases hbc
      | cons z zs =>
        simp only [charsLe] at hab hbc ⊢
        by_cases hxy : x.toNat < y.toNat
        · by_cases hyz : y.toNat < z.toNat
          · simp [show x.toNat < z.toNat by omega]
          · by_cases hzy : z.toNat < y.toNat
            · simp [hyz, hzy] at hbc
            · have : y.toNat = z.toNat := by omega
              simp [show x.toNat < z.toNat by omega]
        · by_cases hyx : y.toNat < x.toNat
          · simp [hxy, hyx] at hab
          · have hxyeq : x.toNat = y.toNat := by omega
            by_cases hyz : y.toNat < z.toNat
            · simp [show x.toNat < z.toNat by omega]
            · by_cases hzy : z.toNat < y.toNat
              · simp [hyz, hzy] at hbc
              · simp only [if_neg hxy, if_neg hyx] at hab
                simp only [if_neg hyz, if_neg hzy] at hbc
                have h1 : ¬x.toNat < z.toNat := by omega
                have h2 : ¬z.toNat < x.toNat := by omega
                simp only [if_neg h1, if_neg h2]
                exact ih ys zs hab hbc

theorem char_toNat_inj {a b : Char} (h : a.toNat = b.toNat) : a = b :=
  Char.ext (UInt32.ext h)

theorem charsLe_antisymm : ∀ a b : List Char,
    charsLe a b = true → charsLe b a = true → a = b := by
  intro a
  induction a with
  | nil =>
    intro b _ hba
    cases b with
    | nil => rfl
    | cons y ys => cases hba
  | cons x xs ih =>
    intro b hab hba
    cases b with
    | nil => cases hab
    | cons y ys =>
      simp only [charsLe] at hab hba
      by_cases hxy : x.toNat < y.toNat
      · simp [show ¬y.toNat < x.toNat by omega, hxy] at hba
      · by_cases hyx : y.toNat < x.toNat
        · simp [hxy, hyx] at hab
        · simp only [if_neg hxy, if_neg hyx] at hab hba
          have hx : x = y := char_toNat_inj (by omega)
          rw [hx, ih ys hab hba]

instance : IsTotal String strLeRel :=
  ⟨fun a b => charsLe_total a.toList b.toList⟩

instance : IsTrans String strLeRel :=
  ⟨fun a b c => charsLe_trans a.toList b.toList c.toList⟩

instance : IsAntisymm String strLeRel :=
  ⟨fun a b hab hba => by
    have := charsLe_antisymm a.toList b.toList hab hba
    cases a
    cases b
    exact congrArg String.mk this⟩

instance : IsTotal (String × JVal) entryLe :=
  ⟨fun a b => charsLe_total a.1.toList b.1.toList⟩

instance : IsTrans (String × JVal) entryLe :=
  ⟨fun a b c => charsLe_trans a.1.toList b.1.toList c.1.toList⟩

/-- C7 — permutation invariance of the day anchor. Sorting the copied CID
list first makes the Merkle root a function of the CID multiset: any two
permutations of the same CIDs give the same root, and the anchor's count
is the number of input CIDs (sorting preserves length). The generated_at
timestamps may differ without affecting the root. -/
theorem anchor_day_perm_invariant (d now1 now2 : String) (l1 l2 : List String)
    (hperm : l1.Perm l2) :
    (anchor_day d l1 now1).root = (anchor_day d l2 now2).root ∧
    (anchor_day d l1 now1).count = l1.length := by
  have hsorteq : List.insertionSort strLeRel l1 = List.insertionSort strLeRel l2 :=
    List.eq_of_perm_of_sorted
      ((List.perm_insertionSort _ _).trans (hperm.trans (List.perm_insertionSort _ _).symm))
      (List.sorted_insertionSort _ _) (List.sorted_insertionSort _ _)
  constructor
  · simp only [anchor_day, hsorteq]
  · simp only [anchor_day]
    exact (List.perm_insertionSort strLeRel l1).length_eq

/-- Witness for C7: anchoring aaa, bbb, ccc and its reversal on 2026-02-19
yields identical roots; the count is 3. -/
theorem anchor_day_perm_invariant_witness :
    (["aaa", "bbb", "ccc"] : List String).Perm ["ccc", "bbb", "aaa"] ∧
    (anchor_day "2026-02-19" ["aaa", "bbb", "ccc"] "t1").root =
      (anchor_day "2026-02-19" ["ccc", "bbb", "aaa"] "t2").root ∧
    (anchor_day "2026-02-19" ["aaa", "bbb", "ccc"] "t1").count = 3 := by
  have h := anchor_day_perm_invariant "2026-02-19" "t1" "t2"
    ["aaa", "bbb", "ccc"] ["ccc", "bbb", "aaa"] (by decide)
  exact ⟨by decide, h.1, h.2⟩

/-- C4 — surrogate escape decoding, evaluated at the claim's inputs. The
lone-surrogate cases fail with LoneSurrogateEscape as claimed, but the
surrogate pair does NOT decode to exactly U+1F600: after decoding the
pair the source advances its index by 6 instead of 7 and its continue
skips the trailing increment, so the last hex digit of the low escape is
processed a second time and the output is U+1F600 followed by a stray
'0'. -/
theorem surrogate_escape_decoding_behavior :
    normalize_string_escapes "\\uD83D\\uDE00" =
      .ok (String.mk [Char.ofNat 128512, '0']) ∧
    normalize_string_escapes "\\uD800" = .error (.loneSurrogateEscape "\\uD800") ∧
    normalize_string_escapes "\\uDC00" = .error (.loneSurrogateEscape "\\uDC00") :=
  ⟨by decide, by decide, by decide⟩

/-- C9 — number normalization, as the code implements it. Values stored as
integers pass through unchanged: every u64 (including those above
i64::MAX, which the claim said would become doubles) and every negative
i64. A finite float equal to zero (this covers -0.0, which compares
equal to 0.0) becomes the integer 0; a whole-valued finite float whose
value fits in i64 becomes that integer; a non-integral finite float, or
a whole-valued one outside the i64 range, stays a float; non-finite
floats fail with NonFiniteNumber. -/
theorem number_normalization_contract :
    (∀ n : Nat, n ≤ u64Max → normalize_number (.posInt n) .strict = .ok (.posInt n)) ∧
    (∀ i : Int, i < 0 → normalize_number (.negInt i) .strict = .ok (.negInt i)) ∧
    normalize_number (.float (.fin 0)) .strict = .ok (.posInt 0) ∧
    (∀ q : Rat, q ≠ 0 → q.den = 1 → i64Min ≤ q.num → q.num ≤ i64Max →
      normalize_number (.float (.fin q)) .strict = .ok (jnumOfI64 q.num)) ∧
    (∀ q : Rat, q.den ≠ 1 →
      normalize_number (.float (.fin q)) .strict = .ok (.float (.fin q))) ∧
    (∀ q : Rat, q ≠ 0 → q.den = 1 → (q.num < i64Min ∨ i64Max < q.num) →
      normalize_number (.float (.fin q)) .strict = .ok (.float (.fin q))) ∧
    normalize_number (.float .nan) .strict = .error .nonFiniteNumber ∧
    normalize_number (.float .inf) .strict = .error .nonFiniteNumber ∧
    normalize_number (.float .negInf) .strict = .error .nonFiniteNumber := by
  have htrunc : ∀ q : Rat, q.den = 1 → ratTrunc q = q.num := by
    intro q hden
    simp [ratTrunc, Rat.floor, Rat.ceil, hden]
  have hsub : ∀ q : Rat, q.den = 1 → q - (ratTrunc q : Rat) = 0 := by
    intro q hden
    rw [htrunc q hden, (Rat.den_eq_one_iff q).mp hden, sub_self]
  refine ⟨?_, ?_, by decide, ?_, ?_, ?_, by decide, by decide, by decide⟩
  · intro n hn
    by_cases h : (n : Int) ≤ i64Max
    · simp [normalize_number, JNum.as_i64, h, jnumOfI64]
    · simp [normalize_number, JNum.as_i64, h, JNum.as_u64, jnumOfU64]
  · intro i hi
    simp [normalize_number, JNum.as_i64, jnumOfI64, hi]
  · intro q hq hden hlo hhi
    have hcast : i128SatCast q = q.num := by
      simp only [i128SatCast, htrunc q hden]
      simp only [i64Min, i64Max] at hlo hhi
      omega
    simp only [normalize_number, JNum.as_i64, JNum.as_u64, JNum.as_f64, F64.isFinite,
      if_neg hq, hsub q hden, hcast]
    simp [hlo, hhi]
  · intro q hden
    have hq : q ≠ 0 := fun h0 => hden (by rw [h0]; rfl)
    have hne : ¬(q - (ratTrunc q : Rat) = 0) := by
      intro h0
      have : q = (ratTrunc q : Rat) := by linarith [sub_eq_zero.mp h0]
      exact hden (by rw [this]; simp)
    simp [normalize_number, JNum.as_i64, JNum.as_u64, JNum.as_f64, hq, hne]
  · intro q hq hden hout
    have hcondfalse : ¬(i64Min ≤ i128SatCast q ∧ i128SatCast q ≤ i64Max) := by
      simp only [i128SatCast, htrunc q hden]
      simp only [i64Min, i64Max] at hout ⊢
      omega
    simp only [normalize_number, JNum.as_i64, JNum.as_u64, JNum.as_f64, F64.isFinite,
      if_neg hq, hsub q hden]
    simp [hcondfalse]

/-- Counterexample for C9: u64::MAX is not expressible as a signed 64-bit
integer, yet normalize_number emits it as that integer (PosInt storage),
not as an IEEE-754 double as the claim requires. -/
theorem number_u64_passthrough_counterexample :
    ¬((18446744073709551615 : Int) ≤ i64Max) ∧
    normalize_number (.posInt 18446744073709551615) .strict =
      .ok (.posInt 18446744073709551615) :=
  ⟨by decide, by decide⟩

/-- Witness for C9: 7 and u64::MAX pass through as integers, -5 passes
through, 0.0 becomes 0, the whole-valued float 1.0 becomes 1, and 3/2
stays a float. -/
theorem number_normalization_contract_witness :
    (7 : Nat) ≤ u64Max ∧
    normalize_number (.posInt 7) .strict = .ok (.posInt 7) ∧
    normalize_number (.posInt 18446744073709551615) .strict =
      .ok (.posInt 18446744073709551615) ∧
    (-5 : Int) < 0 ∧
    normalize_number (.negInt (-5)) .strict = .ok (.negInt (-5)) ∧
    normalize_number (.float (.fin 0)) .strict = .ok (.posInt 0) ∧
    ((1 : Rat) ≠ 0 ∧ (1 : Rat).den = 1 ∧
     normalize_number (.float (.fin 1)) .strict = .ok (jnumOfI64 (1 : Rat).num)) ∧
    ((Rat.mk' 3 2 (by decide) (by decide)).den ≠ 1 ∧
     normalize_number (.float (.fin (Rat.mk' 3 2 (by decide) (by decide)))) .strict =
       .ok (.float (.fin (Rat.mk' 3 2 (by decide) (by decide))))) := by
  refine ⟨by decide, number_normalization_contract.1 7 (by decide),
    number_normalization_contract.1 18446744073709551615 (by decide),
    by decide, number_normalization_contract.2.1 (-5) (by decide),
    number_normalization_contract.2.2.1, ⟨by norm_num, rfl, ?_⟩, ⟨by decide, ?_⟩⟩
  · exact number_normalization_contract.2.2.2.1 1 (by norm_num) rfl (by decide) (by decide)
  · exact number_normalization_contract.2.2.2.2.1 (Rat.mk' 3 2 (by decide) (by decide))
      (by decide)

theorem parse_u_escape_shape (s : String) (l : List Char) :
    (∃ n, parse_u_escape s l = .ok n) ∨
    parse_u_escape s l = .error (.loneSurrogateEscape s) := by
  match l with
  | [] => exact Or.inr rfl
  | [c1] => exact Or.inr rfl
  | [c1, c2] => exact Or.inr rfl
  | [c1, c2, c3] => exact Or.inr rfl
  | c1 :: c2 :: c3 :: c4 :: rest =>
    have hunf : parse_u_escape s (c1 :: c2 :: c3 :: c4 :: rest) =
        (match hexDigitVal? c1, hexDigitVal? c2, hexDigitVal? c3, hexDigitVal? c4 with
         | some h1, some h2, some h3, some h4 =>
             Except.ok (((h1 * 16 + h2) * 16 + h3) * 16 + h4)
         | _, _, _, _ => Except.error (CanonError.loneSurrogateEscape s)) := rfl
    rw [hunf]
    rcases hexDigitVal? c1 with _ | v1 <;> rcases hexDigitVal? c2 with _ | v2 <;>
      rcases hexDigitVal? c3 with _ | v3 <;> rcases hexDigitVal? c4 with _ | v4 <;>
      first
        | exact Or.inr rfl
        | exact Or.inl ⟨_, rfl⟩

theorem parse_u_escape_error_shape (s : String) (l : List Char) (e : CanonError)
    (h : parse_u_escape s l = .error e) : e = .loneSurrogateEscape s := by
  rcases parse_u_escape_shape s l with ⟨n, hok⟩ | herr
  · rw [hok] at h
    cases h
  · rw [herr] at h
    injection h with h2
    exact h2.symm

theorem nsePairTail_shape (s : String) (k : List Char → Except CanonError (List Char))
    (cp : Nat) (tail4 : List Char) :
    nsePairTail s k cp tail4 = .error (.loneSurrogateEscape s) ∨
    (∃ ch tail6, tail4 = '\\' :: 'u' :: tail6 ∧
      nsePairTail s k cp tail4 = (k (tail6.drop 3)).map (fun out => ch :: out)) := by
  rw [nsePairTail.eq_def]
  split
  · next tail6 =>
    rcases hp2 : parse_u_escape s tail6 with err2 | cp2
    · rw [parse_u_escape_error_shape s tail6 err2 hp2]
      exact Or.inl rfl
    · simp only []
      by_cases hlo : 0xDC00 ≤ cp2 ∧ cp2 ≤ 0xDFFF
      · rw [if_neg (by simpa using hlo)]
        rcases charFromU32? (0x10000 + ((cp - 0xD800) * 1024 + (cp2 - 0xDC00)))
          with _ | ch
        · exact Or.inl rfl
        · exact Or.inr ⟨ch, tail6, rfl, rfl⟩
      · rw [if_pos (by simpa using hlo)]
        exact Or.inl rfl
  · exact Or.inl rfl

theorem nseUnicodeOk_shape (s : String) (k : List Char → Except CanonError (List Char))
    (rest2 : List Char) (cp : Nat) :
    nseUnicodeOk s k rest2 cp = .error (.loneSurrogateEscape s) ∨
    (∃ ch, nseUnicodeOk s k rest2 cp = (k (rest2.drop 4)).map (fun out => ch :: out)) ∨
    (∃ ch tail6, rest2.drop 4 = '\\' :: 'u' :: tail6 ∧
      nseUnicodeOk s k rest2 cp = (k (tail6.drop 3)).map (fun out => ch :: out)) := by
  rw [nseUnicodeOk]
  by_cases hhi : 0xD800 ≤ cp ∧ cp ≤ 0xDBFF
  · rw [if_pos hhi]
    rcases nsePairTail_shape s k cp (rest2.drop 4) with herr | ⟨ch, tail6, heq, hk⟩
    · exact Or.inl herr
    · exact Or.inr (Or.inr ⟨ch, tail6, heq, hk⟩)
  · rw [if_neg hhi]
    by_cases hlo : 0xDC00 ≤ cp ∧ cp ≤ 0xDFFF
    · rw [if_pos hlo]
      exact Or.inl rfl
    · rw [if_neg hlo]
      rcases charFromU32? cp with _ | ch
      · exact Or.inl rfl
      · exact Or.inr (Or.inl ⟨ch, rfl⟩)

theorem nseUnicode_shape (s : String) (k : List Char → Except CanonError (List Char))
    (rest2 : List Char) :
    nseUnicode s k rest2 = .error (.loneSurrogateEscape s) ∨
    (∃ ch, nseUnicode s k rest2 = (k (rest2.drop 4)).map (fun out => ch :: out)) ∨
    (∃ ch tail6, rest2.drop 4 = '\\' :: 'u' :: tail6 ∧
      nseUnicode s k rest2 = (k (tail6.drop 3)).map (fun out => ch :: out)) := by
  rw [nseUnicode]
  rcases hp : parse_u_escape s rest2 with err | cp
  · rw [parse_u_escape_error_shape s rest2 err hp]
    exact Or.inl rfl
  · exact nseUnicodeOk_shape s k rest2 cp

theorem nseGo_cons (s : String) (f : Nat) (c : Char) (rest : List Char) :
    nseGo s (f + 1) (c :: rest) =
      if c ≠ '\\' then (nseGo s f rest).map (fun out => c :: out)
      else
        match rest with
        | [] => .ok ['\\']
        | e :: rest2 => nseEscape s (nseGo s f) e rest2 := rfl

theorem nseGo_ok_or_lone (s : String) : ∀ (fuel : Nat) (l : List Char), l.length < fuel →
    (∃ out, nseGo s fuel l = .ok out) ∨
    (∃ t, nseGo s fuel l = .error (.loneSurrogateEscape t)) := by
  intro fuel
  induction fuel with
  | zero => intro l h; omega
  | succ f ih =>
    intro l hl
    have hmap : ∀ (m : List Char) (g : List Char → List Char), m.length < f →
        (∃ out, (nseGo s f m).map g = .ok out) ∨
        (∃ t, (nseGo s f m).map g = .error (.loneSurrogateEscape t)) := by
      intro m g hm
      rcases ih m hm with ⟨out, ho⟩ | ⟨t, he⟩
      · exact Or.inl ⟨g out, by rw [ho]; rfl⟩
      · exact Or.inr ⟨t, by rw [he]; rfl⟩
    match l with
    | [] => exact Or.inl ⟨[], rfl⟩
    | c :: rest =>
      simp only [List.length_cons] at hl
      by_cases hc : c = '\\'
      · subst hc
        match rest with
        | [] => exact Or.inl ⟨['\\'], rfl⟩
        | e :: rest2 =>
          simp only [List.length_cons] at hl
          have hred : nseGo s (f + 1) ('\\' :: e :: rest2) =
              nseEscape s (nseGo s f) e rest2 := by
            rw [nseGo_cons, if_neg (by simp)]
          rw [hred, nseEscape.eq_def]
          split
          · exact hmap rest2 _ (by omega)
          · exact hmap rest2 _ (by omega)
          · exact hmap rest2 _ (by omega)
          · exact hmap rest2 _ (by omega)
          · exact hmap rest2 _ (by omega)
          · exact hmap rest2 _ (by omega)
          · exact hmap rest2 _ (by omega)
          · exact hmap rest2 _ (by omega)
          · rcases nseUnicode_shape s (nseGo s f) rest2 with herr | ⟨ch, hk⟩ |
              ⟨ch, tail6, heq, hk⟩
            · rw [herr]
              exact Or.inr ⟨s, rfl⟩
            · rw [hk]
              exact hmap (rest2.drop 4) _ (by simp only [List.length_drop]; omega)
            · rw [hk]
              have hlen := congrArg List.length heq
              simp only [List.length_drop, List.length_cons] at hlen
              exact hmap (tail6.drop 3) _ (by simp only [List.length_drop]; omega)
          · exact hmap rest2 _ (by omega)
      · have hred : nseGo s (f + 1) (c :: rest) =
            (nseGo s f rest).map (fun out => c :: out) := by
          rw [nseGo_cons, if_pos hc]
        rw [hred]
        exact hmap rest _ (by omega)

theorem nseGo_no_backslash (s : String) : ∀ (fuel : Nat) (l : List Char),
    l.length < fuel → '\\' ∉ l → nseGo s fuel l = .ok l := by
  intro fuel
  induction fuel with
  | zero => intro l h _; omega
  | succ f ih =>
    intro l hl hbs
    match l with
    | [] => rfl
    | c :: rest =>
      simp only [List.mem_cons, not_or] at hbs
      simp only [List.length_cons] at hl
      rw [nseGo_cons, if_pos (fun h => hbs.1 h.symm)]
      rw [ih rest (by omega) hbs.2]
      rfl

theorem nseGo_trailing_backslash (s : String) : ∀ (fuel : Nat) (l : List Char),
    l.length + 1 < fuel → '\\' ∉ l →
    nseGo s fuel (l ++ ['\\']) = .ok (l ++ ['\\']) := by
  intro fuel
  induction fuel with
  | zero => intro l h _; omega
  | succ f ih =>
    intro l hl hbs
    match l with
    | [] =>
      rw [List.nil_append]
      rw [nseGo_cons, if_neg (by simp)]
    | c :: rest =>
      simp only [List.mem_cons, not_or] at hbs
      simp only [List.length_cons] at hl
      rw [List.cons_append, nseGo_cons, if_pos (fun h => hbs.1 h.symm)]
      rw [ih rest (by omega) hbs.2]
      rfl

theorem nseEscape_other (s : String) (k : List Char → Except CanonError (List Char))
    (e : Char) (rest2 : List Char)
    (h : e ∉ ['"', '\\', '/', 'b', 'f', 'n', 'r', 't', 'u']) :
    nseEscape s k e rest2 = (k rest2).map (fun out => '\\' :: e :: out) := by
  simp only [List.mem_cons, not_or] at h
  rw [nseEscape.eq_def]
  split <;> first | rfl | simp_all

/-- C10 — string canonicalization is total over non-standard escapes.
Part 1: canonicalizing any string value either succeeds or fails with
LoneSurrogateEscape or DisallowedString — no other error arises from
strings. Part 2: a backslash followed by any character outside the
standard JSON escape set is preserved verbatim as the backslash plus
that character. Part 3: a string whose other characters contain no
backslash and that ends in a lone trailing backslash keeps that
backslash; neither case is an error. -/
theorem string_canonicalization_total :
    (∀ (str : String) (p : CanonProfile),
      (∃ out, canonicalize_value (.str str) p = .ok out) ∨
      (∃ t, canonicalize_value (.str str) p = .error (.loneSurrogateEscape t)) ∨
      (∃ t, canonicalize_value (.str str) p = .error (.disallowedString t))) ∧
    (∀ c : Char, c ∉ ['"', '\\', '/', 'b', 'f', 'n', 'r', 't', 'u'] →
      normalize_string_escapes (String.mk ['\\', c]) = .ok (String.mk ['\\', c])) ∧
    (∀ l : List Char, '\\' ∉ l →
      normalize_string_escapes (String.mk (l ++ ['\\'])) =
        .ok (String.mk (l ++ ['\\']))) := by
  refine ⟨?_, ?_, ?_⟩
  · intro str p
    have hcanon : canonicalize_value (.str str) p =
        (normalize_string_escapes str).bind (fun normalized =>
          (validate_string normalized).bind (fun _ =>
            Except.ok (JVal.str normalized))) := rfl
    rcases hn : normalize_string_escapes str with e | n
    · rcases nseGo_ok_or_lone str (str.toList.length + 1) str.toList (by omega)
        with ⟨out, ho⟩ | ⟨t, he⟩
      · rw [normalize_string_escapes, ho] at hn
        cases hn
      · refine Or.inr (Or.inl ⟨t, ?_⟩)
        rw [hcanon, normalize_string_escapes, he]
        rfl
    · by_cases hv : n = "NaN" ∨ n = "Infinity" ∨ n = "-Infinity"
      · refine Or.inr (Or.inr ⟨n, ?_⟩)
        rw [hcanon, hn]
        simp [Except.bind, validate_string, hv]
      · refine Or.inl ⟨.str n, ?_⟩
        rw [hcanon, hn]
        simp [Except.bind, validate_string, hv]
  · intro c hc
    rw [normalize_string_escapes]
    have htl : (String.mk ['\\', c]).toList = ['\\', c] := rfl
    rw [htl]
    have hred : nseGo (String.mk ['\\', c]) (['\\', c].length + 1) ['\\', c] =
        nseEscape (String.mk ['\\', c]) (nseGo (String.mk ['\\', c]) 2) c [] := rfl
    rw [hred, nseEscape_other _ _ c [] hc]
    rfl
  · intro l hbs
    rw [normalize_string_escapes]
    have htl : (String.mk (l ++ ['\\'])).toList = l ++ ['\\'] := rfl
    rw [htl, nseGo_trailing_backslash (String.mk (l ++ ['\\']))
      ((l ++ ['\\']).length + 1) l (by simp) hbs]
    rfl


/-- Witness for C10: the escape backslash-q is preserved verbatim, the
string abc with a trailing backslash keeps it, and canonicalizing the
plain string hello succeeds. -/
theorem string_canonicalization_total_witness :
    ('q' ∉ (['"', '\\', '/', 'b', 'f', 'n', 'r', 't', 'u'] : List Char)) ∧
    normalize_string_escapes "\\q" = .ok "\\q" ∧
    normalize_string_escapes "abc\\" = .ok "abc\\" ∧
    canonicalize_value (.str "hello") CanonProfile.default = .ok (.str "hello") := by
  refine ⟨by decide, ?_, ?_, by decide⟩
  · exact string_canonicalization_total.2.1 'q' (by decide)
  · exact string_canonicalization_total.2.2 ['a', 'b', 'c'] (by decide)


theorem blake3Compress_length (cv bw : List Nat) (counter blockLen flags : Nat) :
    (blake3Compress cv bw counter blockLen flags).length = 16 := by
  simp [blake3Compress]

theorem chunkFold_length (counter rootFlag : Nat) :
    ∀ (blocks : List (List Nat)) (cv : List Nat) (isFirst : Bool), cv.length = 8 →
    (chunkFold counter rootFlag cv isFirst blocks).length = 8 := by
  intro blocks
  induction blocks with
  | nil => intro cv isFirst h; exact h
  | cons b rest ih =>
    intro cv isFirst h
    match rest with
    | [] =>
      show ((blake3Compress cv (blockWords b) counter b.length
        ((if isFirst then CHUNK_START else 0) + CHUNK_END + rootFlag)).take 8).length = 8
      rw [List.length_take, blake3Compress_length]
      omega
    | b2 :: rest2 =>
      exact ih ((blake3Compress cv (blockWords b) counter b.length
        (if isFirst then CHUNK_START else 0)).take 8) false
        (by rw [List.length_take, blake3Compress_length]; omega)

theorem chunkCV_length (bytes : List Nat) (counter rootFlag : Nat) :
    (chunkCV bytes counter rootFlag).length = 8 :=
  chunkFold_length counter rootFlag (blocksGo [] bytes) blake3IV true rfl

theorem blake3Words_length (bytes : List Nat) : (blake3Words bytes).length = 8 := by
  rw [blake3Words]
  split
  · exact chunkCV_length bytes 0 ROOT
  · simp only [List.length_take, blake3Compress_length]
    omega

theorem bytesOfWords_length (ws : List Nat) : (ws.flatMap (fun w =>
    [w % 256, w / 256 % 256, w / 65536 % 256, w / 16777216 % 256])).length
      = 4 * ws.length := by
  induction ws with
  | nil => rfl
  | cons w rest ih =>
    simp only [List.flatMap_cons, List.length_append, List.length_cons,
      List.length_nil] at ih ⊢
    omega

theorem blake3Hash_length (bytes : List Nat) : (blake3Hash bytes).length = 32 := by
  rw [blake3Hash, bytesOfWords, bytesOfWords_length, blake3Words_length]

theorem length_asString (l : List Char) : (List.asString l).length = l.length := rfl

theorem hexFlatMap_length (bs : List Nat) :
    (bs.flatMap (fun b => [hexDigitChar (b / 16), hexDigitChar (b % 16)])).length
      = 2 * bs.length := by
  induction bs with
  | nil => rfl
  | cons b rest ih =>
    simp only [List.flatMap_cons, List.length_append, List.length_cons,
      List.length_nil] at ih ⊢
    omega

theorem hexOfBytes_length (bs : List Nat) : (hexOfBytes bs).length = 2 * bs.length := by
  rw [hexOfBytes, length_asString]
  exact hexFlatMap_length bs

theorem cid_for_length (value : JVal) (cid : String) (h : cid_for value = .ok cid) :
    cid.length = 64 := by
  rw [cid_for] at h
  rcases hc : canonical_json_string value with e | canon
  · rw [hc] at h
    cases h
  · rw [hc] at h
    have h2 : Except.ok (hexOfBytes (blake3Hash (utf8Encode canon))) = Except.ok cid := h
    injection h2 with h3
    rw [← h3, hexOfBytes_length, blake3Hash_length]

/-- C1 — corrected form. Every receipt the runtime sign_receipt produces
stores as cid the cid_for of its unsigned view: the lowercase hex (not
base32) encoding of the 32-byte BLAKE3 digest of the canonical bytes, so
every receipt CID has length 64 (not 52), and recomputing the cid from the
stored receipt returns exactly the stored value. -/
theorem sign_receipt_cid_contract (sign : List Nat → List Nat) (pubKeyBytes : List Nat)
    (kid : String) (job : QueuedJob) (status : WorkStatus)
    (policy_trace : List PolicyEntry) (ttft_ms ttr_ms : Nat) (created_at : String)
    (r : Receipt)
    (h : sign_receipt sign pubKeyBytes kid job status policy_trace ttft_ms ttr_ms
      created_at = .ok r) :
    computed_cid r = .ok r.cid ∧ r.cid.length = 64 := by
  rw [sign_receipt] at h
  rcases hik : job.work.idem_key with _ | idem_key
  · simp only [hik] at h
    cases h
  · simp only [hik] at h
    rcases hph : job.work.plan_hash with e | plan_hash
    · simp only [hph] at h
      cases h
    · simp only [hph] at h
      rcases hcid : cid_for (unsignedToJVal
          { work_id := job.work.id, tenant := job.work.tenant, topic := job.work.topic,
            status := status, idem_key := idem_key, plan_hash := plan_hash,
            policy_trace := policy_trace,
            stage_time_ms := [("ttft_ms", ttft_ms), ("ttr_ms", ttr_ms)],
            artifacts := [], created_at := created_at }) with e | cid
      · simp only [hcid] at h
        cases h
      · simp only [hcid] at h
        injection h with h2
        subst h2
        exact ⟨hcid, cid_for_length _ _ hcid⟩

/-- Concrete signing inputs for the C1 counterexample and witness: a leased
job with an explicit idempotency key, a stand-in signing function and a
32-byte public key. -/
def wuC1 : WorkUnit :=
  { id := "w1", tenant := "acme", topic := "emit", idem_key := some "idem-1",
    payload := .null, submitted_at := "2025-01-01T00:00:00Z" }

def jobC1 : QueuedJob :=
  { seq := 1, work := wuC1, attempt := 1, accepted_at := 0,
    leased_at := some 0, lease_expires_at := some 30000 }

def signedC1 : Except SignError Receipt :=
  sign_receipt (fun _ => List.replicate 64 0) (List.replicate 32 0) "k1" jobC1
    .done [] 5 9 "2025-01-02T00:00:00Z"

def recC1 : Receipt :=
  match signedC1 with
  | .ok r => r
  | .error _ =>
    { cid := "", work_id := "", tenant := "", topic := "", status := .done,
      idem_key := "", plan_hash := "", policy_trace := [], stage_time_ms := [],
      artifacts := [], created_at := "",
      signature := { alg := "", kid := "", public_key := "", signature := "" } }

/-- C1 counterexample: a receipt actually produced by sign_receipt carries
a 64-character cid — the hex digest — not the 52-character base32 cid_of
encoding the claim describes, and the base32 cid_of of the same canonical
bytes differs from the stored cid. -/
theorem receipt_cid_base32_counterexample :
    signedC1 = .ok recC1 ∧
    recC1.cid.length = 64 ∧ ¬recC1.cid.length = 52 ∧
    ¬(canonical_json_string (unsignedToJVal recC1.unsigned)).map
        (fun canon => cid_of (utf8Encode canon)) = .ok recC1.cid := by
  decide

/-- Witness for C1 at the concrete signing inputs. -/
theorem sign_receipt_cid_contract_witness :
    computed_cid recC1 = .ok recC1.cid ∧ recC1.cid.length = 64 :=
  sign_receipt_cid_contract (fun _ => List.replicate 64 0) (List.replicate 32 0) "k1"
    jobC1 .done [] 5 9 "2025-01-02T00:00:00Z" recC1 (by decide)

/-- C5 — corrected form. Whenever verify_receipt returns a verdict, the
verdict is structured as claimed: ok is exactly the conjunction of
cid_match and signature_valid. The never-throws half of the claim is
false: errors from cid recomputation and from the signature block are
propagated, not turned into verdicts (see the counterexample). -/
theorem verify_receipt_verdict_structure
    (ed_verify : List Nat → List Nat → List Nat → Option Bool) (r : Receipt)
    (v : ReceiptVerification)
    (h : verify_receipt ed_verify r = .ok v) :
    v.ok = (v.cid_match && v.signature_valid) := by
  rw [verify_receipt] at h
  rcases hcm : cid_matches r with e | cm
  · simp only [hcm] at h
    cases h
  · simp only [hcm] at h
    rcases hvs : verify_signature ed_verify r with e | sv
    · simp only [hvs] at h
      cases h
    · simp only [hvs] at h
      injection h with h2
      subst h2
      rfl

/-- Concrete verification inputs for C5: an always-false stand-in verifier,
a receipt whose signature block decodes to a 32-byte key and 64-byte
signature, and its variant whose tenant is the disallowed string NaN. -/
def edC5 : List Nat → List Nat → List Nat → Option Bool := fun _ _ _ => some false

def recC5 : Receipt :=
  { cid := "x", work_id := "w1", tenant := "acme", topic := "emit", status := .done,
    idem_key := "i", plan_hash := "p", policy_trace := [],
    stage_time_ms := [("ttft_ms", 1), ("ttr_ms", 2)],
    artifacts := [], created_at := "2025-01-02T00:00:00Z",
    signature :=
      { alg := "ed25519", kid := "k",
        public_key := (List.replicate 43 'A' ++ ['=']).asString,
        signature := (List.replicate 86 'A' ++ ['=', '=']).asString } }

def recC5bad : Receipt := { recC5 with tenant := "NaN" }

def vC5 : ReceiptVerification :=
  { ok := false, cid_match := false, signature_valid := false }

/-- C5 counterexample: verify_receipt throws. On a receipt whose tenant is
the string NaN, recomputing the cid fails canonicalization and
verify_receipt propagates the error instead of returning a verdict. -/
theorem verify_receipt_throws_counterexample :
    verify_receipt edC5 recC5bad = .error (.canon (.disallowedString "NaN")) := by
  decide

/-- Witness for C5 at the concrete verification inputs. -/
theorem verify_receipt_verdict_witness :
    vC5.ok = (vC5.cid_match && vC5.signature_valid) :=
  verify_receipt_verdict_structure edC5 recC5 vC5 (by decide)

/-- C3 — refuted: canonicalization is not idempotent with respect to the
emitted bytes. For the seven-character string value backslash backslash
u 0 0 4 1, the first canonicalization collapses the escaped backslash and
leaves the six characters backslash u 0 0 4 1; canonicalizing that
canonical value again (as to_nrf_bytes does) decodes those six characters
as a unicode escape down to the single character A, so
to_nrf_bytes(v, p) differs from to_nrf_bytes(canonicalize(v, p), p). -/
theorem canonicalization_bytes_not_idempotent :
    canonicalize_value (.str (String.mk ['\\', '\\', 'u', '0', '0', '4', '1']))
        CanonProfile.default
      = .ok (.str (String.mk ['\\', 'u', '0', '0', '4', '1'])) ∧
    ¬to_nrf_bytes (.str (String.mk ['\\', '\\', 'u', '0', '0', '4', '1']))
        CanonProfile.default
      = to_nrf_bytes (.str (String.mk ['\\', 'u', '0', '0', '4', '1']))
        CanonProfile.default := by
  decide

end Aurea
